import Mathlib

/-!
# susi-mongodb: the serialized command dispatcher and its bus handlers

A shallow embedding of `Mongo.go` (the connection manager, the command queue,
the execution loop and the four command handlers) and of the five bus
processors of `main.go`.

* Go `interface{}` values are the inductive `Value`.
* The `mgo` driver and the `bson` helpers are external libraries: they are
  parameters (`Driver`, `Bson`).  A driver answers a call as a function of
  the history of all earlier calls, which covers every deterministic
  behaviour of the database.
* Side effects are explicit: `State` carries the `Mongo` struct, the log of
  driver calls, the values sent on reply channels and the time slept.
* Blocking is explicit: a function that can block reports it in its result
  (`Res.stuck`, `LoopEnd.waiting`, `FindStep.await`, `Handled.await`).
-/

namespace SusiMongo

/-! ## Values of type `interface{}` -/

/-- Go values that travel in payloads and command arguments.  `null` is the
nil interface; `nilMap` is a nil `map[string]interface{}` (the zero value a
receive on a closed result stream yields). -/
inductive Value where
  | null
  | bool (b : Bool)
  | num (n : Int)
  | str (s : String)
  | objectId (hex : String)
  | map (fields : List (String × Value))
  | nilMap
  | slice (items : List Value)

instance : Inhabited Value := ⟨Value.null⟩

/-- A non-nil `map[string]interface{}`: an association list. -/
abbrev Doc := List (String × Value)

/-- `m[key]`: the value stored under the key, or the nil interface. -/
def Doc.get : Doc → String → Value
  | [], _ => Value.null
  | (k, v) :: rest, key => if k = key then v else Doc.get rest key

/-- `m[key] = v`. -/
def Doc.set : Doc → String → Value → Doc
  | [], key, v => [(key, v)]
  | (k, w) :: rest, key, v =>
    if k = key then (k, v) :: rest else (k, w) :: Doc.set rest key v

/-- `x.(string)`. -/
def Value.asString : Value → Option String
  | Value.str s => some s
  | _ => none

/-- `x.(map[string]interface{})`; a nil map reads as an empty one. -/
def Value.asMap : Value → Option Doc
  | Value.map fields => some fields
  | Value.nilMap => some []
  | _ => none

/-! ## The external libraries -/

/-- A database session is identified by a number. -/
abbrev Session := Nat

/-- The operations asked of the driver. -/
inductive Op where
  | Dial (addr : String)
  | Insert (db collection : String) (doc : Value)
  | Upsert (db collection : String) (selector update : Value)
  | Remove (db collection : String) (selector : Value)
  | Find (db collection : String) (query : Value)

/-- One driver call as it happened: the session it was issued on (for a dial:
the session it returned, none when it failed), the operation, and the
error it came back with. -/
structure Call where
  session : Option Session
  op : Op
  err : Option String

/-- The iterator `c.Find(q).Iter()` hands back.  `iter.Err()` is read twice
by `find`, on line 146 and again on line 160 after the producer goroutine
has been started, and the iterator is filled by the driver in the
background, so the two reads are two observations. -/
structure Iter where
  docs : List Doc
  errAtCheck : Option String
  errAtReturn : Option String

/-- The `mgo` driver together with the database behind it.  Every answer may
depend on all the calls made before. -/
structure Driver where
  Dial : List Call → String → Except String Session
  Insert : List Call → Session → String → String → Value → Option String
  Upsert : List Call → Session → String → String → Value → Value → Option String
  Remove : List Call → Session → String → String → Value → Option String
  Find : List Call → Session → String → String → Value → Iter

/-- The `bson` helpers used by the processors. -/
structure Bson where
  IsObjectIdHex : String → Bool
  NewObjectId : Nat → String

/-! ## Result streams -/

/-- The channel `result` of `find` (capacity 64) together with the goroutine
that feeds it.  `iter` is what `iter.Next` will still hand out, `obj` is the
identity of the map the goroutine currently holds (a fresh one is made after
every send), `buf` is the channel buffer (map identity and contents) and
`closes` counts the executions of `close(result)`. -/
structure ResultStream where
  iter : List Doc
  obj : Nat
  buf : List (Nat × Doc)
  closes : Nat

/-- The capacity of the result channel. -/
def resultCap : Nat := 64

/-- The stream as `find` creates it. -/
def ResultStream.fresh (docs : List Doc) : ResultStream :=
  { iter := docs, obj := 0, buf := [], closes := 0 }

/-- One move of the producer goroutine (lines 150 to 157): `iter.Next(&obj)`
followed by `result <- obj` and a new map, or `close(result)` when the
iterator is exhausted.  `none`: the goroutine cannot move, because the
buffer is full or because it has returned. -/
def produce (r : ResultStream) : Option ResultStream :=
  if r.closes ≠ 0 then none
  else
    match r.iter with
    | [] => some { r with closes := r.closes + 1 }
    | d :: rest =>
      if r.buf.length < resultCap then
        some { r with iter := rest, obj := r.obj + 1, buf := r.buf ++ [(r.obj, d)] }
      else none

/-- One receive on the stream.  `none`: the receiver blocks (nothing buffered,
not closed).  `some (none, r)`: the stream is closed and empty, the receive
yields the zero value.  `some (some x, r1)`: the oldest buffered item. -/
def receive (r : ResultStream) : Option (Option (Nat × Doc) × ResultStream) :=
  match r.buf with
  | x :: rest => some (some x, { r with buf := rest })
  | [] => if r.closes ≠ 0 then some (none, r) else none

/-- The loop `for doc := range iter { docs = append(docs, doc) }` of the find
processor, run against the producer under a schedule: at every tick the
schedule names the goroutine to run (true: the producer), and when that
one cannot move the other one runs.  `none`: the schedule ended first. -/
def rangeStream : List Bool → ResultStream → List (Nat × Doc) →
    Option (List (Nat × Doc) × ResultStream)
  | [], _, _ => none
  | b :: sched, r, docs =>
    match b, produce r, receive r with
    | true, some r1, _ => rangeStream sched r1 docs
    | true, none, some (some x, r1) => rangeStream sched r1 (docs ++ [x])
    | true, none, some (none, r1) => some (docs, r1)
    | true, none, none => rangeStream sched r docs
    | false, _, some (some x, r1) => rangeStream sched r1 (docs ++ [x])
    | false, _, some (none, r1) => some (docs, r1)
    | false, some r1, none => rangeStream sched r1 docs
    | false, none, none => rangeStream sched r docs

/-- The single receive `<-iter` of the get processor, under a schedule. -/
def recvOne : List Bool → ResultStream → Option (Option (Nat × Doc) × ResultStream)
  | [], _ => none
  | b :: sched, r =>
    match b, produce r, receive r with
    | true, some r1, _ => recvOne sched r1
    | true, none, some res => some res
    | true, none, none => recvOne sched r
    | false, _, some res => some res
    | false, some r1, none => recvOne sched r1
    | false, none, none => recvOne sched r

/-! ## Mongo.go -/

/-- The command tags. -/
inductive commandType where
  | insert
  | upsert
  | find
  | remove
  deriving DecidableEq, Repr

/-- The struct `cmd`.  `Typ` is the field `Type`; `Return` is the identity of
the reply channel, none for a nil channel. -/
structure cmd where
  Typ : commandType
  DB : String
  Collection : String
  Args : List Value
  Return : Option Nat

/-- The struct `Mongo`.  `commands` lists the values in the channel
`commands` in FIFO order: the first 64 sit in the buffer, any further one
belongs to a producer parked in the send queue of the channel. -/
structure Mongo where
  addr : String
  session : Option Session
  commands : List cmd
  connected : Bool

/-- What is sent on a reply channel: an error or a result stream. -/
inductive Reply where
  | err (e : String)
  | result (r : ResultStream)

/-- The program state: the `Mongo` struct and the record of its effects. -/
structure State where
  mongo : Mongo
  log : List Call
  replies : List (Nat × Reply)
  slept : Nat
  chans : Nat
  ids : Nat

/-- The capacity of the channel `commands`. -/
def commandsCap : Nat := 64

/-- `NewMongo` before the goroutine `backend` has run. -/
def NewMongo (addr : String) : State :=
  { mongo := { addr := addr, session := none, commands := [], connected := false },
    log := [], replies := [], slept := 0, chans := 0, ids := 0 }

/-- A send on `commands` by a caller of the API.  With a full buffer the
caller parks and its value waits in line behind the buffer. -/
def State.enqueue (st : State) (c : cmd) : State :=
  { st with mongo := { st.mongo with commands := st.mongo.commands ++ [c] } }

/-- `Mongo.Insert`. -/
def Insert (st : State) (db collection : String) (doc : Value) : State :=
  st.enqueue ⟨commandType.insert, db, collection, [doc], none⟩

/-- `Mongo.Upsert`. -/
def Upsert (st : State) (db collection : String) (query doc : Value) : State :=
  st.enqueue ⟨commandType.upsert, db, collection, [query, doc], none⟩

/-- `Mongo.Remove`. -/
def Remove (st : State) (db collection : String) (query : Value) : State :=
  st.enqueue ⟨commandType.remove, db, collection, [query], none⟩

/-- `Mongo.Find` up to its receive on `ret`. -/
inductive FindStep where
  | ret (st : State) (result : Option ResultStream) (err : Option String)
  | await (st : State) (ch : Nat)

/-- `Mongo.Find`, lines 58 to 62: the check of the flag, then the new reply
channel and the send of the command.  `await st ch`: blocked on `<-ret`. -/
def Find (st : State) (db collection : String) (query : Value) : FindStep :=
  if !st.mongo.connected then
    FindStep.ret st none (some "db not connected")
  else
    let ret := st.chans
    let st1 := { st with chans := st.chans + 1 }
    FindStep.await (st1.enqueue ⟨commandType.find, db, collection, [query], some ret⟩) ret

/-- `Mongo.Find`, lines 63 to 67: what is returned for the value received. -/
def FindReturn : Reply → Option ResultStream × Option String
  | Reply.err e => (none, some e)
  | Reply.result r => (some r, none)

/-- The result of a function of the dispatcher: it returns, or it blocks for
good on a send, or it panics. -/
inductive Res (α : Type) where
  | ret (a : α) (st : State)
  | stuck (st : State)
  | panic

/-- The send `p.commands <- command` made by the dispatcher itself.  The
dispatcher is the only receiver, so with a full buffer it never resumes. -/
def resend (st : State) (command : cmd) (err : String) : Res (Option String) :=
  if st.mongo.commands.length < commandsCap then
    Res.ret (some err) (st.enqueue command)
  else Res.stuck st

/-- Appends a driver call to the log. -/
def State.record (st : State) (s : Session) (op : Op) (err : Option String) : State :=
  { st with log := st.log ++ [⟨some s, op, err⟩] }

/-- `Mongo.insert`. -/
def insert (drv : Driver) (st : State) (command : cmd) : Res (Option String) :=
  match st.mongo.session, command.Args with
  | some s, a0 :: _ =>
    let err := drv.Insert st.log s command.DB command.Collection a0
    let st1 := st.record s (Op.Insert command.DB command.Collection a0) err
    match err with
    | some e => resend st1 command e
    | none => Res.ret none st1
  | _, _ => Res.panic

/-- `Mongo.upsert`. -/
def upsert (drv : Driver) (st : State) (command : cmd) : Res (Option String) :=
  match st.mongo.session, command.Args with
  | some s, a0 :: a1 :: _ =>
    let err := drv.Upsert st.log s command.DB command.Collection a0 a1
    let st1 := st.record s (Op.Upsert command.DB command.Collection a0 a1) err
    match err with
    | some e => resend st1 command e
    | none => Res.ret none st1
  | _, _ => Res.panic

/-- `Mongo.remove`. -/
def remove (drv : Driver) (st : State) (command : cmd) : Res (Option String) :=
  match st.mongo.session, command.Args with
  | some s, a0 :: _ =>
    let err := drv.Remove st.log s command.DB command.Collection a0
    let st1 := st.record s (Op.Remove command.DB command.Collection a0) err
    match err with
    | some e => resend st1 command e
    | none => Res.ret none st1
  | _, _ => Res.panic

/-- A send on the reply channel of a command.  The caller of `Find` is
waiting on it; a send on a nil channel blocks for good. -/
def State.reply (st : State) (ch : Nat) (v : Reply) : State :=
  { st with replies := st.replies ++ [(ch, v)] }

/-- `Mongo.find`. -/
def find (drv : Driver) (st : State) (command : cmd) : Res (Option String) :=
  match st.mongo.session, command.Args with
  | some s, a0 :: _ =>
    let iter := drv.Find st.log s command.DB command.Collection a0
    let st1 := st.record s (Op.Find command.DB command.Collection a0) iter.errAtCheck
    match command.Return with
    | none => Res.stuck st1
    | some ch =>
      match iter.errAtCheck with
      | some e => Res.ret iter.errAtReturn (st1.reply ch (Reply.err e))
      | none => Res.ret iter.errAtReturn (st1.reply ch (Reply.result (ResultStream.fresh iter.docs)))
  | _, _ => Res.panic

/-- The body of the loop of `commandLoop`: the switch on the tag. -/
def dispatch (drv : Driver) (st : State) (command : cmd) : Res (Option String) :=
  match command.Typ with
  | commandType.insert => insert drv st command
  | commandType.upsert => upsert drv st command
  | commandType.remove => remove drv st command
  | commandType.find => find drv st command

/-- How a run of `commandLoop` ends: it returns (a handler reported an
error), it waits on the empty queue, it is blocked for good on its own
send, it panics, or the fuel of the model ran out. -/
inductive LoopEnd where
  | returned
  | waiting
  | deadlock
  | panicked
  | outOfFuel
  deriving DecidableEq, Repr

/-- The receive of `for command := range p.commands`. -/
def State.dequeue (st : State) : Option (cmd × State) :=
  match st.mongo.commands with
  | [] => none
  | c :: rest => some (c, { st with mongo := { st.mongo with commands := rest } })

/-- `Mongo.commandLoop`; the fuel bounds the number of iterations. -/
def commandLoop (drv : Driver) : Nat → State → LoopEnd × State
  | 0, st => (LoopEnd.outOfFuel, st)
  | fuel + 1, st =>
    match st.dequeue with
    | none => (LoopEnd.waiting, st)
    | some (command, st1) =>
      match dispatch drv st1 command with
      | Res.ret none st2 => commandLoop drv fuel st2
      | Res.ret (some _) st2 => (LoopEnd.returned, st2)
      | Res.stuck st2 => (LoopEnd.deadlock, st2)
      | Res.panic => (LoopEnd.panicked, st1)

/-- A dial: the call is logged with its outcome. -/
def State.dialed (st : State) (s : Option Session) (err : Option String) : State :=
  { st with log := st.log ++ [⟨s, Op.Dial st.mongo.addr, err⟩] }

/-- `Mongo.backend`; the fuel bounds the number of dials.  The inner run of
`commandLoop` gets one unit of fuel per queued command and one more, which
is always enough (`commandLoop_fuel`). -/
def backend (drv : Driver) : Nat → State → LoopEnd × State
  | 0, st => (LoopEnd.outOfFuel, st)
  | fuel + 1, st =>
    match drv.Dial st.log st.mongo.addr with
    | Except.error e =>
      let st1 := st.dialed none (some e)
      backend drv fuel { st1 with slept := st1.slept + 1 }
    | Except.ok s =>
      let st1 := st.dialed (some s) none
      let st2 := { st1 with mongo := { st1.mongo with session := some s, connected := true } }
      match commandLoop drv (st2.mongo.commands.length + 1) st2 with
      | (LoopEnd.returned, st3) =>
        backend drv fuel { st3 with mongo := { st3.mongo with connected := false } }
      | other => other

/-! ## The connection manager as a transition system -/

/-- Where the goroutine `backend` stands: before `mgo.Dial` (line 72), in
`time.Sleep` (line 75), inside `commandLoop` (line 80), before
`p.connected = false` (line 81); `blocked` when the dispatcher is parked
for good on a send, `crashed` after a panic. -/
inductive Phase where
  | dial
  | backoff
  | loop
  | reset
  | blocked
  | crashed
  deriving DecidableEq, Repr

/-- The goroutine `backend` and the state it works on. -/
structure Sys where
  phase : Phase
  st : State

/-- One move of the goroutine `backend`: a dial, the sleep, one iteration of
`commandLoop`, or the reset of the flag. -/
def Sys.step (drv : Driver) (σ : Sys) : Sys :=
  match σ.phase with
  | Phase.dial =>
    match drv.Dial σ.st.log σ.st.mongo.addr with
    | Except.error e => ⟨Phase.backoff, σ.st.dialed none (some e)⟩
    | Except.ok s =>
      let st1 := σ.st.dialed (some s) none
      ⟨Phase.loop, { st1 with mongo := { st1.mongo with session := some s, connected := true } }⟩
  | Phase.backoff => ⟨Phase.dial, { σ.st with slept := σ.st.slept + 1 }⟩
  | Phase.loop =>
    match σ.st.dequeue with
    | none => σ
    | some (command, st1) =>
      match dispatch drv st1 command with
      | Res.ret none st2 => ⟨Phase.loop, st2⟩
      | Res.ret (some _) st2 => ⟨Phase.reset, st2⟩
      | Res.stuck st2 => ⟨Phase.blocked, st2⟩
      | Res.panic => ⟨Phase.crashed, st1⟩
  | Phase.reset =>
    ⟨Phase.dial, { σ.st with mongo := { σ.st.mongo with connected := false } }⟩
  | Phase.blocked => σ
  | Phase.crashed => σ

/-- The state `Mongo.Find` leaves behind when called by another goroutine. -/
def FindStep.state : FindStep → State
  | FindStep.ret st _ _ => st
  | FindStep.await st _ => st

/-- The states the system reaches from `NewMongo`: moves of `backend`
interleaved with calls of the four operations by other goroutines. -/
inductive Reachable (drv : Driver) (addr : String) : Sys → Prop where
  | init : Reachable drv addr ⟨Phase.dial, NewMongo addr⟩
  | step {σ : Sys} : Reachable drv addr σ → Reachable drv addr (σ.step drv)
  | callInsert {σ : Sys} (db collection : String) (doc : Value) :
      Reachable drv addr σ → Reachable drv addr ⟨σ.phase, Insert σ.st db collection doc⟩
  | callUpsert {σ : Sys} (db collection : String) (query doc : Value) :
      Reachable drv addr σ → Reachable drv addr ⟨σ.phase, Upsert σ.st db collection query doc⟩
  | callRemove {σ : Sys} (db collection : String) (query : Value) :
      Reachable drv addr σ → Reachable drv addr ⟨σ.phase, Remove σ.st db collection query⟩
  | callFind {σ : Sys} (db collection : String) (query : Value) :
      Reachable drv addr σ → Reachable drv addr ⟨σ.phase, (Find σ.st db collection query).state⟩

/-- The session a logged call returned, when it is a dial that succeeded. -/
def Call.dialed (c : Call) : Option Session :=
  match c.op, c.err with
  | Op.Dial _, none => c.session
  | _, _ => none

/-- The session returned by the most recent successful dial of a log. -/
def lastDialed : List Call → Option Session
  | [] => none
  | c :: rest =>
    match lastDialed rest with
    | some s => some s
    | none => c.dialed

/-! ## main.go -/

/-- The fields of `susigo.Event` the processors touch. -/
structure Event where
  Headers : List (List (String × String))
  Payload : Value

/-- `addError`. -/
def addError (err : String) (event : Event) : Event :=
  { event with Headers := event.Headers ++ [[("Error", err)]] }

/-- What a processor does with an event.  `done`: it reached
`susi.Ack(event)` with this event and left this state.  `await`: it is
blocked inside `mongo.Find` on the reply channel `ch`; `k` is the rest of
the processor, given the value received and the schedule of the result
stream (`none`: no response within the schedule).  `panic`: it panicked. -/
inductive Handled where
  | done (event : Event) (st : State)
  | await (st : State) (ch : Nat) (k : Reply → List Bool → Option Event)
  | panic

/-- The processor of `mongodb::insert`.  The map `doc` is the one stored
under `payload["doc"]`, so the write of `_id` shows there too. -/
def insertProcessor (bson : Bson) (st : State) (event : Event) : Handled :=
  match event.Payload.asMap with
  | some payload =>
    match (Doc.get payload "db").asString, (Doc.get payload "collection").asString,
        Doc.get payload "doc" with
    | some db, some collection, Value.map doc =>
      let id := Value.objectId (bson.NewObjectId st.ids)
      let doc1 := Doc.set doc "_id" id
      let st1 := Insert { st with ids := st.ids + 1 } db collection (Value.map doc1)
      let payload1 := Doc.set (Doc.set payload "doc" (Value.map doc1)) "id" id
      Handled.done { event with Payload := Value.map payload1 } st1
    | some _, some _, Value.nilMap => Handled.panic
    | _, _, _ => Handled.done (addError "need db, collection and doc as parameters" event) st
  | none => Handled.done (addError "need db, collection and doc as parameters" event) st

/-- The processor of `mongodb::remove`. -/
def removeProcessor (bson : Bson) (st : State) (event : Event) : Handled :=
  match event.Payload.asMap with
  | some payload =>
    match (Doc.get payload "db").asString, (Doc.get payload "collection").asString,
        (Doc.get payload "id").asString with
    | some db, some collection, some id =>
      if bson.IsObjectIdHex id then
        let st1 := Remove st db collection (Value.map [("_id", Value.objectId id)])
        Handled.done { event with Payload := Value.map (Doc.set payload "success" (Value.bool true)) } st1
      else Handled.done (addError "need db, collection and id as parameters" event) st
    | _, _, _ => Handled.done (addError "need db, collection and id as parameters" event) st
  | none => Handled.done (addError "need db, collection and id as parameters" event) st

/-- The processor of `mongodb::upsert`. -/
def upsertProcessor (bson : Bson) (st : State) (event : Event) : Handled :=
  match event.Payload.asMap with
  | some payload =>
    match (Doc.get payload "db").asString, (Doc.get payload "collection").asString,
        (Doc.get payload "id").asString, (Doc.get payload "doc").asMap with
    | some db, some collection, some id, some _ =>
      if bson.IsObjectIdHex id then
        let st1 := Upsert st db collection (Value.map [("_id", Value.objectId id)])
          (Doc.get payload "doc")
        Handled.done { event with Payload := Value.map (Doc.set payload "success" (Value.bool true)) } st1
      else Handled.done (addError "need db, collection, id and doc as parameters" event) st
    | _, _, _, _ =>
      Handled.done (addError "need db, collection, id and doc as parameters" event) st
  | none => Handled.done (addError "need db, collection, id and doc as parameters" event) st

/-- The documents of the items drained from a stream, as a Go slice. -/
def docsValue (items : List (Nat × Doc)) : Value :=
  Value.slice (items.map fun x => Value.map x.2)

/-- The processor of `mongodb::find`. -/
def findProcessor (st : State) (event : Event) : Handled :=
  match event.Payload.asMap with
  | some payload =>
    match (Doc.get payload "db").asString, (Doc.get payload "collection").asString,
        (Doc.get payload "query").asMap with
    | some db, some collection, some _ =>
      match Find st db collection (Doc.get payload "query") with
      | FindStep.ret st1 _ (some err) => Handled.done (addError err event) st1
      | FindStep.ret _ _ none => Handled.panic
      | FindStep.await st1 ch =>
        Handled.await st1 ch fun res sched =>
          match FindReturn res with
          | (_, some err) => some (addError err event)
          | (some iter, none) =>
            (rangeStream sched iter []).map fun out =>
              { event with Payload := Value.map (Doc.set payload "docs" (docsValue out.1)) }
          | (none, none) => none
    | _, _, _ => Handled.done (addError "need db, collection and query as parameters" event) st
  | none => Handled.done (addError "need db, collection and query as parameters" event) st

/-- What `<-iter` yields in the get processor: the document received, or the
nil map when the stream was closed and empty. -/
def received : Option (Nat × Doc) → Value
  | some x => Value.map x.2
  | none => Value.nilMap

/-- The processor of `mongodb::get`. -/
def getProcessor (bson : Bson) (st : State) (event : Event) : Handled :=
  match event.Payload.asMap with
  | some payload =>
    match (Doc.get payload "db").asString, (Doc.get payload "collection").asString,
        (Doc.get payload "id").asString with
    | some db, some collection, some id =>
      if bson.IsObjectIdHex id then
        match Find st db collection (Value.map [("_id", Value.objectId id)]) with
        | FindStep.ret st1 _ (some err) => Handled.done (addError err event) st1
        | FindStep.ret _ _ none => Handled.panic
        | FindStep.await st1 ch =>
          Handled.await st1 ch fun res sched =>
            match FindReturn res with
            | (_, some err) => some (addError err event)
            | (some iter, none) =>
              (recvOne sched iter).map fun out =>
                { event with Payload := Value.map (Doc.set payload "doc" (received out.1)) }
            | (none, none) => none
      else Handled.done (addError "need db, collection and id as parameters" event) st
    | _, _, _ => Handled.done (addError "need db, collection and id as parameters" event) st
  | none => Handled.done (addError "need db, collection and id as parameters" event) st

/-- The command families served on the bus, one per registered processor. -/
inductive Family where
  | insert
  | remove
  | upsert
  | find
  | get
  deriving DecidableEq, Repr

/-- The processor registered for a family. -/
def Family.processor (bson : Bson) : Family → State → Event → Handled
  | Family.insert => insertProcessor bson
  | Family.remove => removeProcessor bson
  | Family.upsert => upsertProcessor bson
  | Family.find => findProcessor
  | Family.get => getProcessor bson

/-- The error text a processor attaches to a message it rejects. -/
def Family.need : Family → String
  | Family.insert => "need db, collection and doc as parameters"
  | Family.remove => "need db, collection and id as parameters"
  | Family.upsert => "need db, collection, id and doc as parameters"
  | Family.find => "need db, collection and query as parameters"
  | Family.get => "need db, collection and id as parameters"

/-- The parameter is a string. -/
def isString (v : Value) : Bool := v.asString.isSome

/-- The parameter is a document. -/
def isDocument (v : Value) : Bool := v.asMap.isSome

/-- The parameter is a string that decodes as a valid identifier. -/
def isIdentifier (bson : Bson) : Value → Bool
  | Value.str s => bson.IsObjectIdHex s
  | _ => false

/-- The parameter contract of a family as the specification words it: the
payload is a mapping with `db` and `collection` strings; insert needs a
document `doc`; remove, upsert and get need an `id` that is a string and a
valid identifier, upsert a document `doc` as well; find needs a document
`query`. -/
def Family.accepts (bson : Bson) (f : Family) (payload : Value) : Bool :=
  match payload.asMap with
  | none => false
  | some m =>
    isString (Doc.get m "db") && isString (Doc.get m "collection") &&
    match f with
    | Family.insert => isDocument (Doc.get m "doc")
    | Family.remove => isIdentifier bson (Doc.get m "id")
    | Family.upsert => isIdentifier bson (Doc.get m "id") && isDocument (Doc.get m "doc")
    | Family.find => isDocument (Doc.get m "query")
    | Family.get => isIdentifier bson (Doc.get m "id")

/-! ## Concrete drivers and inputs for the evaluations -/

/-- `bson.IsObjectIdHex` as the library defines it; `NewObjectId` numbers the
identifiers. -/
def stdBson : Bson :=
  { IsObjectIdHex := fun s => s.length == 24 && s.data.all fun c => c.isDigit ||
      ('a' ≤ c && c ≤ 'f') || ('A' ≤ c && c ≤ 'F'),
    NewObjectId := fun n =>
      let d := Nat.toDigits 16 n
      String.mk (List.replicate (24 - d.length) '0' ++ d) }

/-- A reachable database on which every write fails and every query is
empty. -/
def downDriver : Driver :=
  { Dial := fun _ _ => Except.ok 7,
    Insert := fun _ _ _ _ _ => some "EOF",
    Upsert := fun _ _ _ _ _ _ => some "EOF",
    Remove := fun _ _ _ _ _ => some "EOF",
    Find := fun _ _ _ _ _ => ⟨[], none, none⟩ }

/-- A state in which the dispatcher holds session 7 and the given commands
are queued. -/
def serving (commands : List cmd) : State :=
  { mongo := { addr := "localhost", session := some 7, commands := commands, connected := true },
    log := [], replies := [], slept := 0, chans := 1, ids := 0 }

/-- The command `Insert("shop", "orders", {"amount": 10})` queues. -/
def orderCmd : cmd :=
  ⟨commandType.insert, "shop", "orders", [Value.map [("amount", Value.num 10)]], none⟩

/-- A database whose writes succeed and whose iterators report no error when
`find` first asks, but an error by the time `find` returns. -/
def racyDriver : Driver :=
  { Dial := fun _ _ => Except.ok 7,
    Insert := fun _ _ _ _ _ => none,
    Upsert := fun _ _ _ _ _ _ => none,
    Remove := fun _ _ _ _ _ => none,
    Find := fun _ _ _ _ _ => ⟨[[("amount", Value.num 10)]], none, some "EOF"⟩ }

/-- The command `Find("shop", "orders", {"amount": 10})` queues on reply
channel 0. -/
def queryCmd : cmd :=
  ⟨commandType.find, "shop", "orders", [Value.map [("amount", Value.num 10)]], some 0⟩

/-- The database call a command stands for: `Insert(Args[0])`,
`Upsert(Args[0], Args[1])`, `Remove(Args[0])` or `Find(Args[0])` on the
database and collection of the command. -/
def cmd.op (c : cmd) : Op :=
  match c.Typ with
  | commandType.insert => Op.Insert c.DB c.Collection (c.Args.getD 0 Value.null)
  | commandType.upsert =>
    Op.Upsert c.DB c.Collection (c.Args.getD 0 Value.null) (c.Args.getD 1 Value.null)
  | commandType.remove => Op.Remove c.DB c.Collection (c.Args.getD 0 Value.null)
  | commandType.find => Op.Find c.DB c.Collection (c.Args.getD 0 Value.null)

/-- The commands the four operations of the API put in the queue. -/
inductive cmd.Issued : cmd → Prop where
  | insert (db collection : String) (doc : Value) :
      cmd.Issued ⟨commandType.insert, db, collection, [doc], none⟩
  | upsert (db collection : String) (query doc : Value) :
      cmd.Issued ⟨commandType.upsert, db, collection, [query, doc], none⟩
  | remove (db collection : String) (query : Value) :
      cmd.Issued ⟨commandType.remove, db, collection, [query], none⟩
  | find (db collection : String) (query : Value) (ch : Nat) :
      cmd.Issued ⟨commandType.find, db, collection, [query], some ch⟩

/-- A command that writes: an insert, an upsert or a remove. -/
def cmd.writes (c : cmd) : Prop := c.Typ ≠ commandType.find

/-- The error the driver answers a command with on a session, given the
calls made so far; for a find, the error of the iterator when `find` returns. -/
def Driver.answer (drv : Driver) (log : List Call) (s : Session) (c : cmd) : Option String :=
  match c.Typ with
  | commandType.insert => drv.Insert log s c.DB c.Collection (c.Args.getD 0 Value.null)
  | commandType.upsert =>
    drv.Upsert log s c.DB c.Collection (c.Args.getD 0 Value.null) (c.Args.getD 1 Value.null)
  | commandType.remove => drv.Remove log s c.DB c.Collection (c.Args.getD 0 Value.null)
  | commandType.find =>
    (drv.Find log s c.DB c.Collection (c.Args.getD 0 Value.null)).errAtReturn

/-- Every write succeeds and no iterator ever reports an error. -/
def Driver.Healthy (drv : Driver) : Prop :=
  (∀ log s db collection doc, drv.Insert log s db collection doc = none) ∧
  (∀ log s db collection selector update,
    drv.Upsert log s db collection selector update = none) ∧
  (∀ log s db collection selector, drv.Remove log s db collection selector = none) ∧
  (∀ log s db collection query,
    (drv.Find log s db collection query).errAtCheck = none ∧
    (drv.Find log s db collection query).errAtReturn = none)

/-- A database on which everything succeeds; every query yields one order. -/
def upDriver : Driver :=
  { Dial := fun _ _ => Except.ok 7,
    Insert := fun _ _ _ _ _ => none,
    Upsert := fun _ _ _ _ _ _ => none,
    Remove := fun _ _ _ _ _ => none,
    Find := fun _ _ _ _ _ => ⟨[[("amount", Value.num 10)]], none, none⟩ }

/-- The logged call is an insert. -/
def isInsert (c : Call) : Bool :=
  match c.op with
  | Op.Insert _ _ _ => true
  | _ => false

/-- A database that can always be dialled and rejects the first `n` inserts
it is asked for. -/
def flakyDriver (n : Nat) : Driver :=
  { Dial := fun log _ => Except.ok log.length,
    Insert := fun log _ _ _ _ => if log.countP isInsert < n then some "EOF" else none,
    Upsert := fun _ _ _ _ _ _ => none,
    Remove := fun _ _ _ _ _ => none,
    Find := fun _ _ _ _ _ => ⟨[], none, none⟩ }

/-- The items a producer sends for the documents of its iterator: each
document with the identity of the map it is put in, counted from `k`. -/
def tagFrom : Nat → List Doc → List (Nat × Doc)
  | _, [] => []
  | k, d :: ds => (k, d) :: tagFrom (k + 1) ds

/-- A number of ticks within which the loop over a stream is through, under
any schedule. -/
def ResultStream.ticks (r : ResultStream) : Nat :=
  if r.closes = 0 then 2 * r.iter.length + r.buf.length + 2 else r.buf.length + 1

/-- A number of ticks within which one receive on a stream is through. -/
def ResultStream.firstTicks (r : ResultStream) : Nat :=
  if r.closes = 0 then r.iter.length + 2 else 1

/-- The states a stream goes through: not closed, or closed once with its
iterator exhausted. -/
def ResultStream.Sound (r : ResultStream) : Prop :=
  r.closes = 0 ∨ (r.closes = 1 ∧ r.iter = [])

/-- The value `<-iter` yields on a fresh stream over the documents: the first
of them, or the nil map when there is none. -/
def firstDoc : List Doc → Value
  | [] => Value.nilMap
  | d :: _ => Value.map d

/-- A request from start to end: the processor runs up to its wait in `Find`,
the dispatcher serves the queue, and the processor goes on with the value
sent on its reply channel.  `none`: no response. -/
def served (drv : Driver) (h : Handled) (sched : List Bool) : Option Event :=
  match h with
  | Handled.done event _ => some event
  | Handled.panic => none
  | Handled.await st ch k =>
    match (commandLoop drv (st.mongo.commands.length + 1) st).2.replies.filter
        (fun x => x.1 == ch) with
    | x :: _ => k x.2 sched
    | [] => none

/-- A get request for an order by its identifier. -/
def orderGet : Event :=
  ⟨[], Value.map [("db", Value.str "shop"), ("collection", Value.str "orders"),
    ("id", Value.str "507f1f77bcf86cd799439011")]⟩

/-- A find request for the orders of amount 10. -/
def orderFind : Event :=
  ⟨[], Value.map [("db", Value.str "shop"), ("collection", Value.str "orders"),
    ("query", Value.map [("amount", Value.num 10)])]⟩

/-- The command the find request `orderFind` queues on reply channel 1. -/
def queryCmd1 : cmd :=
  ⟨commandType.find, "shop", "orders", [Value.map [("amount", Value.num 10)]], some 1⟩

/-- A property of the state a function of the dispatcher leaves. -/
def Res.All {α : Type} (P : State → Prop) : Res α → Prop
  | Res.ret _ st => P st
  | Res.stuck st => P st
  | Res.panic => True

/-- What the handlers of the dispatcher leave alone: the session, the flag,
the address and the most recent successful dial of the log. -/
def Kept (st st1 : State) : Prop :=
  st1.mongo.session = st.mongo.session ∧ st1.mongo.connected = st.mongo.connected ∧
    st1.mongo.addr = st.mongo.addr ∧ lastDialed st1.log = lastDialed st.log

/-- The invariant of the connection manager: before a dial and during the
sleep the flag is false; from the start of `commandLoop` to the reset the
flag is true and the session is the one of the most recent successful
dial. -/
def Sys.Inv (σ : Sys) : Prop :=
  match σ.phase with
  | Phase.dial => σ.st.mongo.connected = false
  | Phase.backoff => σ.st.mongo.connected = false
  | _ => σ.st.mongo.connected = true ∧ σ.st.mongo.session.isSome = true ∧
      σ.st.mongo.session = lastDialed σ.st.log

/-- Every queued command comes from the API and the dispatcher has not
panicked. -/
def Sys.Clean (σ : Sys) : Prop :=
  (∀ c ∈ σ.st.mongo.commands, c.Issued) ∧ σ.phase ≠ Phase.crashed

/-- A database that cannot be reached. -/
def unreachableDriver : Driver :=
  { Dial := fun _ _ => Except.error "no reachable servers",
    Insert := fun _ _ _ _ _ => some "EOF",
    Upsert := fun _ _ _ _ _ _ => some "EOF",
    Remove := fun _ _ _ _ _ => some "EOF",
    Find := fun _ _ _ _ _ => ⟨[], some "EOF", some "EOF"⟩ }

/-- The phase of the transition system a run of `commandLoop` ends in. -/
def LoopEnd.phase : LoopEnd → Phase
  | LoopEnd.returned => Phase.reset
  | LoopEnd.waiting => Phase.loop
  | LoopEnd.deadlock => Phase.blocked
  | LoopEnd.panicked => Phase.crashed
  | LoopEnd.outOfFuel => Phase.loop

/-- The phase of the transition system a run of `backend` ends in. -/
def LoopEnd.backendPhase : LoopEnd → Phase
  | LoopEnd.returned => Phase.reset
  | LoopEnd.waiting => Phase.loop
  | LoopEnd.deadlock => Phase.blocked
  | LoopEnd.panicked => Phase.crashed
  | LoopEnd.outOfFuel => Phase.dial

end SusiMongo

namespace SusiMongo

/-! ## Theorems -/

/-- C1: with the connected flag false, `Find` returns no stream and the error
"db not connected", and the whole state, the command queue in it, is as it
was: nothing is enqueued and the queue depth is unchanged. -/
theorem Find_not_connected (st : State) (db collection : String) (query : Value)
    (h : st.mongo.connected = false) :
    Find st db collection query = FindStep.ret st none (some "db not connected") ∧
    (Find st db collection query).state.mongo.commands = st.mongo.commands ∧
    (Find st db collection query).state.mongo.commands.length = st.mongo.commands.length := by
  have e : Find st db collection query = FindStep.ret st none (some "db not connected") := by
    simp [Find, h]
  rw [e]
  exact ⟨rfl, rfl, rfl⟩

/-- A concrete instance: `Find` on the state `NewMongo` leaves. -/
theorem Find_not_connected_witness :
    (NewMongo "localhost").mongo.connected = false ∧
    Find (NewMongo "localhost") "shop" "orders" (Value.map []) =
      FindStep.ret (NewMongo "localhost") none (some "db not connected") :=
  ⟨rfl, (Find_not_connected (NewMongo "localhost") "shop" "orders" (Value.map []) rfl).1⟩

/-! ### The handlers of the dispatcher -/

/-- A write whose database call fails: the call is logged and the command is
sent to the queue again. -/
theorem dispatch_write_error (drv : Driver) (st : State) (c : cmd) (s : Session) (e : String)
    (hi : c.Issued) (hw : c.writes) (hs : st.mongo.session = some s)
    (he : drv.answer st.log s c = some e) :
    dispatch drv st c = resend (st.record s c.op (some e)) c e := by
  cases hi with
  | insert db collection doc =>
    simp only [Driver.answer, List.getD_cons_zero] at he
    simp [dispatch, insert, hs, he, cmd.op]
  | upsert db collection query doc =>
    simp only [Driver.answer, List.getD_cons_zero, List.getD_cons_succ] at he
    simp [dispatch, upsert, hs, he, cmd.op]
  | remove db collection query =>
    simp only [Driver.answer, List.getD_cons_zero] at he
    simp [dispatch, remove, hs, he, cmd.op]
  | find db collection query ch => exact absurd rfl hw

/-- A write whose database call succeeds: the call is logged, nothing else
changes. -/
theorem dispatch_write_ok (drv : Driver) (st : State) (c : cmd) (s : Session)
    (hi : c.Issued) (hw : c.writes) (hs : st.mongo.session = some s)
    (he : drv.answer st.log s c = none) :
    dispatch drv st c = Res.ret none (st.record s c.op none) := by
  cases hi with
  | insert db collection doc =>
    simp only [Driver.answer, List.getD_cons_zero] at he
    simp [dispatch, insert, hs, he, cmd.op]
  | upsert db collection query doc =>
    simp only [Driver.answer, List.getD_cons_zero, List.getD_cons_succ] at he
    simp [dispatch, upsert, hs, he, cmd.op]
  | remove db collection query =>
    simp only [Driver.answer, List.getD_cons_zero] at he
    simp [dispatch, remove, hs, he, cmd.op]
  | find db collection query ch => exact absurd rfl hw

/-- On a healthy driver a command of the API is served by one logged call and
leaves the `Mongo` struct as it is. -/
theorem dispatch_healthy (drv : Driver) (hd : drv.Healthy) (st : State) (c : cmd) (s : Session)
    (hi : c.Issued) (hs : st.mongo.session = some s) :
    ∃ st2, dispatch drv st c = Res.ret none st2 ∧
      st2.log = st.log ++ [⟨some s, c.op, none⟩] ∧ st2.mongo = st.mongo := by
  obtain ⟨hI, hU, hR, hF⟩ := hd
  cases hi with
  | insert db collection doc =>
    exact ⟨st.record s (Op.Insert db collection doc) none,
      by simp [dispatch, insert, hs, hI], by simp [State.record, cmd.op], rfl⟩
  | upsert db collection query doc =>
    exact ⟨st.record s (Op.Upsert db collection query doc) none,
      by simp [dispatch, upsert, hs, hU], by simp [State.record, cmd.op], rfl⟩
  | remove db collection query =>
    exact ⟨st.record s (Op.Remove db collection query) none,
      by simp [dispatch, remove, hs, hR], by simp [State.record, cmd.op], rfl⟩
  | find db collection query ch =>
    refine ⟨(st.record s (Op.Find db collection query) none).reply ch
      (Reply.result (ResultStream.fresh (drv.Find st.log s db collection query).docs)), ?_, ?_, ?_⟩
    · simp only [dispatch, find, hs, (hF _ _ _ _ _).1, (hF _ _ _ _ _).2]
    · simp [State.record, State.reply, cmd.op]
    · rfl

/-- The loop on a healthy driver, by induction on the queue. -/
theorem commandLoop_healthy_aux (drv : Driver) (hd : drv.Healthy) (s : Session)
    (cmds : List cmd) :
    ∀ (st : State) (fuel : Nat), st.mongo.session = some s → st.mongo.commands = cmds →
      (∀ c ∈ cmds, c.Issued) → cmds.length + 1 ≤ fuel →
      ∃ st1, commandLoop drv fuel st = (LoopEnd.waiting, st1) ∧
        st1.log = st.log ++ cmds.map (fun c => ⟨some s, c.op, none⟩) ∧
        st1.mongo = { st.mongo with commands := [] } := by
  induction cmds with
  | nil =>
    intro st fuel hs hq _ hf
    obtain ⟨f, rfl⟩ : ∃ f, fuel = f + 1 := ⟨fuel - 1, by omega⟩
    refine ⟨st, ?_, by simp, ?_⟩
    · simp [commandLoop, State.dequeue, hq]
    · rw [← hq]
  | cons c rest ih =>
    intro st fuel hs hq hi hf
    obtain ⟨f, rfl⟩ : ∃ f, fuel = f + 1 := ⟨fuel - 1, by omega⟩
    obtain ⟨st2, h2, hlog, hm⟩ := dispatch_healthy drv hd
      { st with mongo := { st.mongo with commands := rest } } c s
      (hi c (List.mem_cons_self _ _)) hs
    have hf2 : rest.length + 1 ≤ f := by simp at hf; omega
    obtain ⟨st3, h3, hlog3, hm3⟩ := ih st2 f (by rw [hm]; exact hs) (by rw [hm])
      (fun c hc => hi c (List.mem_cons_of_mem _ hc)) hf2
    refine ⟨st3, ?_, ?_, ?_⟩
    · simp only [commandLoop, State.dequeue, hq, h2, h3]
    · rw [hlog3, hlog]; simp
    · rw [hm3, hm]

/-- C4: on a session on which every database call succeeds, the
loop serves the queued commands in queue order, one database call per
command, the call its tag selects on its database and collection; it ends
waiting on the empty queue, with nothing sent to the queue again. -/
theorem commandLoop_fifo (drv : Driver) (st : State) (s : Session) (fuel : Nat)
    (hd : drv.Healthy) (hs : st.mongo.session = some s)
    (hi : ∀ c ∈ st.mongo.commands, c.Issued) (hf : st.mongo.commands.length + 1 ≤ fuel) :
    ∃ st1, commandLoop drv fuel st = (LoopEnd.waiting, st1) ∧
      st1.log = st.log ++ st.mongo.commands.map (fun c => ⟨some s, c.op, none⟩) ∧
      st1.mongo.commands = [] ∧
      st1.mongo = { st.mongo with commands := [] } := by
  obtain ⟨st1, h1, h2, h3⟩ := commandLoop_healthy_aux drv hd s st.mongo.commands st fuel hs rfl hi hf
  exact ⟨st1, h1, h2, by rw [h3], h3⟩

/-- The driver `upDriver` is healthy. -/
theorem upDriver_healthy : upDriver.Healthy :=
  ⟨fun _ _ _ _ _ => rfl, fun _ _ _ _ _ _ => rfl, fun _ _ _ _ _ => rfl,
    fun _ _ _ _ _ => ⟨rfl, rfl⟩⟩

/-- A concrete instance: an insert and a find queued on a healthy driver. -/
theorem commandLoop_fifo_witness :
    ∃ st1, commandLoop upDriver 3 (serving [orderCmd, queryCmd]) = (LoopEnd.waiting, st1) ∧
      st1.log = (serving [orderCmd, queryCmd]).log ++
        (serving [orderCmd, queryCmd]).mongo.commands.map (fun c => ⟨some 7, c.op, none⟩) ∧
      st1.mongo.commands = [] ∧
      st1.mongo = { (serving [orderCmd, queryCmd]).mongo with commands := [] } :=
  commandLoop_fifo upDriver (serving [orderCmd, queryCmd]) 7 3 upDriver_healthy rfl
    (by
      intro c hc
      simp only [serving, List.mem_cons, List.mem_singleton, List.not_mem_nil, or_false] at hc
      rcases hc with rfl | rfl
      · exact cmd.Issued.insert _ _ _
      · exact cmd.Issued.find _ _ _ _)
    (by decide)

/-- A failed write with room in the queue: the loop logs the one call, sends
the same command to the back of the queue and returns. -/
theorem commandLoop_write_error (drv : Driver) (st : State) (c : cmd) (rest : List cmd)
    (s : Session) (e : String) (fuel : Nat)
    (hq : st.mongo.commands = c :: rest) (hi : c.Issued) (hw : c.writes)
    (hs : st.mongo.session = some s) (he : drv.answer st.log s c = some e)
    (hroom : rest.length < commandsCap) :
    commandLoop drv (fuel + 1) st =
      (LoopEnd.returned,
        { st with
          mongo := { st.mongo with commands := rest ++ [c] },
          log := st.log ++ [⟨some s, c.op, some e⟩] }) := by
  have hd := dispatch_write_error drv { st with mongo := { st.mongo with commands := rest } }
    c s e hi hw hs he
  simp only [commandLoop, State.dequeue, hq, hd, resend, State.record, hroom, if_true,
    State.enqueue]

/-- A failed write with a full queue: the send of the dispatcher blocks, the
command is not in the queue and the loop never returns. -/
theorem commandLoop_write_error_full (drv : Driver) (st : State) (c : cmd) (rest : List cmd)
    (s : Session) (e : String) (fuel : Nat)
    (hq : st.mongo.commands = c :: rest) (hi : c.Issued) (hw : c.writes)
    (hs : st.mongo.session = some s) (he : drv.answer st.log s c = some e)
    (hfull : commandsCap ≤ rest.length) :
    commandLoop drv (fuel + 1) st =
      (LoopEnd.deadlock,
        { st with
          mongo := { st.mongo with commands := rest },
          log := st.log ++ [⟨some s, c.op, some e⟩] }) := by
  have hd := dispatch_write_error drv { st with mongo := { st.mongo with commands := rest } }
    c s e hi hw hs he
  have hn : ¬ rest.length < commandsCap := by omega
  simp only [commandLoop, State.dequeue, hq, hd, resend, State.record, hn, if_false]

/-- C2, evaluated where it fails: 65 inserts are in the channel (64 buffered,
one held by a parked producer) and the database rejects the first.  The
loop makes the one call and then blocks on its own send: it does not
return, and the failed command is not in the queue, which holds the 64
other commands. -/
theorem commandLoop_full_queue_deadlock :
    (commandLoop downDriver 66 (serving (List.replicate 65 orderCmd))).1 = LoopEnd.deadlock ∧
    (commandLoop downDriver 66 (serving (List.replicate 65 orderCmd))).2.mongo.commands
      = List.replicate 64 orderCmd ∧
    (commandLoop downDriver 66 (serving (List.replicate 65 orderCmd))).2.log =
      [⟨some 7, Op.Insert "shop" "orders" (Value.map [("amount", Value.num 10)]),
        some "EOF"⟩] :=
  ⟨rfl, rfl, rfl⟩

/-- C3: a find command with a reply channel, run on a session, returns; its
reply channel is sent exactly one value, the error of the iterator when
there is one and a fresh result stream otherwise; the command queue is left
as it was, so a failed find is not sent to the queue again. -/
theorem find_replies_once (drv : Driver) (st : State) (command : cmd) (s : Session)
    (q : Value) (rest : List Value) (ch : Nat)
    (ht : command.Typ = commandType.find) (hs : st.mongo.session = some s)
    (ha : command.Args = q :: rest) (hr : command.Return = some ch) :
    ∃ v st1,
      dispatch drv st command =
        Res.ret (drv.Find st.log s command.DB command.Collection q).errAtReturn st1 ∧
      st1.replies = st.replies ++ [(ch, v)] ∧
      (match (drv.Find st.log s command.DB command.Collection q).errAtCheck with
        | some e => v = Reply.err e
        | none => v = Reply.result
            (ResultStream.fresh (drv.Find st.log s command.DB command.Collection q).docs)) ∧
      st1.mongo.commands = st.mongo.commands := by
  simp only [dispatch, ht, find, hs, ha, hr]
  cases hc : (drv.Find st.log s command.DB command.Collection q).errAtCheck with
  | some e => exact ⟨_, _, rfl, rfl, rfl, rfl⟩
  | none => exact ⟨_, _, rfl, rfl, rfl, rfl⟩

/-- A concrete instance: the find command `queryCmd` on a healthy driver. -/
theorem find_replies_once_witness :
    ∃ v st1,
      dispatch upDriver (serving []) queryCmd = Res.ret none st1 ∧
      st1.replies = [(0, v)] ∧
      v = Reply.result (ResultStream.fresh [[("amount", Value.num 10)]]) ∧
      st1.mongo.commands = [] :=
  find_replies_once upDriver (serving []) queryCmd 7 (Value.map [("amount", Value.num 10)]) []
    0 rfl rfl rfl rfl

/-- C9, evaluated where it fails: the iterator reports no error when `find`
first asks and an error when `find` returns.  The reply channel is sent a
result stream, not an error, and yet the loop returns: the insert queued
behind the find is not served. -/
theorem commandLoop_returns_after_stream :
    commandLoop racyDriver 3 (serving [queryCmd, orderCmd]) =
      (LoopEnd.returned,
        { serving [orderCmd] with
          log := [⟨some 7, Op.Find "shop" "orders" (Value.map [("amount", Value.num 10)]),
            none⟩],
          replies := [(0, Reply.result (ResultStream.fresh [[("amount", Value.num 10)]]))] }) :=
  rfl

/-! ### The processors -/

/-- C7: a message whose payload fails the parameter contract of its family
is answered by the processor with the error annotation of the family
appended to its headers; its payload is not touched and the state is the
one before, so no command was built or enqueued. -/
theorem processor_rejects (bson : Bson) (f : Family) (st : State) (event : Event)
    (h : f.accepts bson event.Payload = false) :
    f.processor bson st event = Handled.done (addError f.need event) st ∧
    (addError f.need event).Payload = event.Payload ∧
    (addError f.need event).Headers = event.Headers ++ [[("Error", f.need)]] := by
  refine ⟨?_, rfl, rfl⟩
  unfold Family.accepts at h
  cases hp : event.Payload.asMap with
  | none =>
    cases f <;> simp [Family.processor, Family.need, insertProcessor, removeProcessor,
      upsertProcessor, findProcessor, getProcessor, hp]
  | some m =>
    rw [hp] at h
    simp only [isString, isDocument] at h
    cases f <;> simp only [Family.processor, Family.need, insertProcessor, removeProcessor,
      upsertProcessor, findProcessor, getProcessor, hp]
    · cases hdb : (Doc.get m "db").asString <;> cases hc : (Doc.get m "collection").asString <;>
        cases hd : Doc.get m "doc" <;> simp_all [Value.asMap]
    · cases hdb : (Doc.get m "db").asString <;> cases hc : (Doc.get m "collection").asString <;>
        cases hd : Doc.get m "id" <;> simp_all [Value.asString, isIdentifier]
    · cases hdb : (Doc.get m "db").asString <;> cases hc : (Doc.get m "collection").asString <;>
        cases hd : Doc.get m "id" <;> cases hd2 : (Doc.get m "doc").asMap <;>
        simp_all [Value.asString, isIdentifier]
    · cases hdb : (Doc.get m "db").asString <;> cases hc : (Doc.get m "collection").asString <;>
        cases hd : (Doc.get m "query").asMap <;> simp_all
    · cases hdb : (Doc.get m "db").asString <;> cases hc : (Doc.get m "collection").asString <;>
        cases hd : Doc.get m "id" <;> simp_all [Value.asString, isIdentifier]

/-- A concrete instance: a remove request whose `id` is no identifier. -/
theorem processor_rejects_witness :
    Family.remove.accepts stdBson (Value.map [("db", Value.str "shop"),
      ("collection", Value.str "orders"), ("id", Value.str "xyz")]) = false ∧
    Family.remove.processor stdBson (serving [])
        ⟨[], Value.map [("db", Value.str "shop"), ("collection", Value.str "orders"),
          ("id", Value.str "xyz")]⟩ =
      Handled.done
        ⟨[[("Error", "need db, collection and id as parameters")]],
          Value.map [("db", Value.str "shop"), ("collection", Value.str "orders"),
            ("id", Value.str "xyz")]⟩ (serving []) :=
  ⟨rfl, (processor_rejects stdBson Family.remove (serving [])
    ⟨[], Value.map [("db", Value.str "shop"), ("collection", Value.str "orders"),
      ("id", Value.str "xyz")]⟩ rfl).1⟩

/-! ### The reconnect loop -/

/-- The reconnect loop with one queued insert, by induction on the number of
rejections still to come. -/
theorem backend_retries_aux (drv : Driver) (N : Nat) (addr db collection : String) (doc : Value)
    (hdial : ∀ log, ∃ s, drv.Dial log addr = Except.ok s)
    (hrej : ∀ log s, log.countP isInsert < N → drv.Insert log s db collection doc ≠ none)
    (hacc : ∀ log s, log.countP isInsert = N → drv.Insert log s db collection doc = none)
    (m : Nat) :
    ∀ (st : State) (fuel : Nat),
      st.mongo.commands = [⟨commandType.insert, db, collection, [doc], none⟩] →
      st.mongo.addr = addr → st.log.countP isInsert + m = N → m + 1 ≤ fuel →
      ∃ st1, backend drv fuel st = (LoopEnd.waiting, st1) ∧ st1.mongo.commands = [] ∧
        st1.mongo.connected = true ∧
        (st1.log.filter isInsert).map Call.op =
          (st.log.filter isInsert).map Call.op ++
            List.replicate (m + 1) (Op.Insert db collection doc) ∧
        (st1.log.filter isInsert).map (fun c => c.err.isNone) =
          (st.log.filter isInsert).map (fun c => c.err.isNone) ++
            (List.replicate m false ++ [true]) := by
  induction m with
  | zero =>
    intro st fuel hq ha hc hf
    obtain ⟨f, rfl⟩ : ∃ f, fuel = f + 1 := ⟨fuel - 1, by omega⟩
    obtain ⟨s0, hs0⟩ := hdial st.log
    rw [← ha] at hs0
    have hok := hacc (st.log ++ [⟨some s0, Op.Dial st.mongo.addr, none⟩]) s0
      (by simp [List.countP_append, isInsert]; omega)
    refine ⟨{ st with
        mongo := { st.mongo with session := some s0, connected := true, commands := [] },
        log := st.log ++ [⟨some s0, Op.Dial st.mongo.addr, none⟩] ++
          [⟨some s0, Op.Insert db collection doc, none⟩] }, ?_, ?_, ?_, ?_, ?_⟩
    · simp only [backend, hs0, State.dialed, hq, List.length_singleton, commandLoop,
        State.dequeue, dispatch, insert, hok, State.record]
    · rfl
    · rfl
    · simp [List.filter_append, isInsert]
    · simp [List.filter_append, isInsert]
  | succ m ih =>
    intro st fuel hq ha hc hf
    obtain ⟨f, rfl⟩ : ∃ f, fuel = f + 1 := ⟨fuel - 1, by omega⟩
    obtain ⟨s0, hs0⟩ := hdial st.log
    rw [← ha] at hs0
    have hno := hrej (st.log ++ [⟨some s0, Op.Dial st.mongo.addr, none⟩]) s0
      (by simp [List.countP_append, isInsert]; omega)
    obtain ⟨e, he⟩ : ∃ e, drv.Insert (st.log ++ [⟨some s0, Op.Dial st.mongo.addr, none⟩]) s0
        db collection doc = some e := Option.ne_none_iff_exists'.mp hno
    obtain ⟨st1, h1, h2, h3, h4, h5⟩ := ih
      { st with
        mongo := { st.mongo with session := some s0, connected := false },
        log := st.log ++ [⟨some s0, Op.Dial st.mongo.addr, none⟩] ++
          [⟨some s0, Op.Insert db collection doc, some e⟩] } f hq ha
      (by simp [List.countP_append, isInsert]; omega) (by omega)
    refine ⟨st1, ?_, h2, h3, ?_, ?_⟩
    · rw [← h1]
      simp only [backend, hs0, State.dialed, hq, List.length_singleton, commandLoop,
        State.dequeue, dispatch, insert, he, State.record, resend, State.enqueue,
        List.length_nil, commandsCap, List.nil_append]
      simp
    · rw [h4]
      simp [List.filter_append, isInsert, List.replicate_succ]
    · rw [h5]
      simp [List.filter_append, isInsert, List.replicate_succ]

/-- C5: one insert is queued and nothing else; every dial succeeds; the
database rejects an insert while fewer than `N` inserts have been attempted
and accepts the next one.  Then the reconnect loop, given fuel for `N + 1`
dials or more, ends waiting on the empty queue, having issued exactly
`N + 1` inserts, all with the arguments of the command, of which the first
`N` failed and the last one succeeded.  This holds for every `N`. -/
theorem backend_retries (drv : Driver) (N : Nat) (st : State) (db collection : String)
    (doc : Value) (fuel : Nat)
    (hq : st.mongo.commands = [⟨commandType.insert, db, collection, [doc], none⟩])
    (h0 : st.log.countP isInsert = 0)
    (hdial : ∀ log, ∃ s, drv.Dial log st.mongo.addr = Except.ok s)
    (hrej : ∀ log s, log.countP isInsert < N → drv.Insert log s db collection doc ≠ none)
    (hacc : ∀ log s, log.countP isInsert = N → drv.Insert log s db collection doc = none)
    (hf : N + 1 ≤ fuel) :
    ∃ st1, backend drv fuel st = (LoopEnd.waiting, st1) ∧ st1.mongo.commands = [] ∧
      (st1.log.filter isInsert).map Call.op =
        List.replicate (N + 1) (Op.Insert db collection doc) ∧
      (st1.log.filter isInsert).map (fun c => c.err.isNone) =
        List.replicate N false ++ [true] := by
  have hnil : st.log.filter isInsert = [] := by
    rw [List.filter_eq_nil_iff]
    intro a ha
    have := List.countP_eq_zero.mp h0 a ha
    simpa using this
  obtain ⟨st1, h1, h2, _, h4, h5⟩ := backend_retries_aux drv N st.mongo.addr db collection doc
    hdial hrej hacc N st fuel hq rfl (by omega) hf
  refine ⟨st1, h1, h2, ?_, ?_⟩
  · rw [h4, hnil]; simp
  · rw [h5, hnil]; simp

/-- A concrete instance: two rejections, then the insert is accepted. -/
theorem backend_retries_witness :
    ∃ st1, backend (flakyDriver 2) 3
        (Insert (NewMongo "localhost") "shop" "orders" (Value.map [("amount", Value.num 10)])) =
        (LoopEnd.waiting, st1) ∧ st1.mongo.commands = [] ∧
      (st1.log.filter isInsert).map Call.op =
        List.replicate 3 (Op.Insert "shop" "orders" (Value.map [("amount", Value.num 10)])) ∧
      (st1.log.filter isInsert).map (fun c => c.err.isNone) = [false, false, true] :=
  backend_retries (flakyDriver 2) 2
    (Insert (NewMongo "localhost") "shop" "orders" (Value.map [("amount", Value.num 10)]))
    "shop" "orders" (Value.map [("amount", Value.num 10)]) 3 rfl rfl
    (fun log => ⟨log.length, rfl⟩)
    (fun log _ h => by simp [flakyDriver, h])
    (fun log _ h => by simp [flakyDriver, h])
    (by decide)

/-! ### Result streams -/

/-- The documents of the items are the documents of the iterator, in order. -/
theorem tagFrom_snd (ds : List Doc) : ∀ k, (tagFrom k ds).map Prod.snd = ds := by
  induction ds with
  | nil => intro k; rfl
  | cons d ds ih => intro k; simp [tagFrom, ih]

/-- The map identities of the items count up from `k`. -/
theorem tagFrom_fst (ds : List Doc) : ∀ k, (tagFrom k ds).map Prod.fst = List.range' k ds.length := by
  induction ds with
  | nil => intro k; rfl
  | cons d ds ih => intro k; simp [tagFrom, ih, List.range'_succ]

/-- No two items share a map. -/
theorem tagFrom_nodup (ds : List Doc) (k : Nat) : ((tagFrom k ds).map Prod.fst).Nodup := by
  rw [tagFrom_fst]; exact List.nodup_range' k ds.length

/-- Under every schedule of enough ticks the loop over a stream collects what
is buffered and then what the iterator still holds, in that order, and
leaves the stream empty and closed once. -/
theorem rangeStream_drains (sched : List Bool) :
    ∀ (r : ResultStream) (docs : List (Nat × Doc)), r.Sound → r.ticks ≤ sched.length →
      rangeStream sched r docs =
        some (docs ++ r.buf ++ tagFrom r.obj r.iter, ⟨[], r.obj + r.iter.length, [], 1⟩) := by
  induction sched with
  | nil =>
    intro r docs _ ht
    unfold ResultStream.ticks at ht
    split at ht <;> simp at ht
  | cons b sched ih =>
    intro r docs hs ht
    obtain ⟨iter, obj, buf, closes⟩ := r
    rcases hs with h0 | ⟨h1, hi⟩
    · simp only at h0
      subst h0
      simp only [ResultStream.ticks, if_true, List.length_cons] at ht
      cases iter with
      | nil =>
        have key := ih ⟨[], obj, buf, 1⟩ docs (Or.inr ⟨rfl, rfl⟩)
          (by simp [ResultStream.ticks]; simp at ht; omega)
        cases buf with
        | nil => cases b <;> simp [rangeStream, produce, receive, key]
        | cons x rest =>
          cases b
          · have key2 := ih ⟨[], obj, rest, 0⟩ (docs ++ [x]) (Or.inl rfl)
              (by simp [ResultStream.ticks]; simp at ht; omega)
            simp [rangeStream, produce, receive, key2, tagFrom]
          · simp [rangeStream, produce, receive, key]
      | cons d ds =>
        cases buf with
        | nil =>
          have key := ih ⟨ds, obj + 1, [(obj, d)], 0⟩ docs (Or.inl rfl)
            (by simp [ResultStream.ticks]; simp at ht; omega)
          cases b <;> simp [rangeStream, produce, receive, key, tagFrom, resultCap] <;> omega
        | cons x rest =>
          have key2 := ih ⟨d :: ds, obj, rest, 0⟩ (docs ++ [x]) (Or.inl rfl)
            (by simp [ResultStream.ticks]; simp at ht; omega)
          cases b
          · simp [rangeStream, produce, receive, key2, tagFrom]
          · by_cases hl : rest.length + 1 < resultCap
            · have key := ih ⟨ds, obj + 1, (x :: rest) ++ [(obj, d)], 0⟩ docs (Or.inl rfl)
                (by simp [ResultStream.ticks]; simp at ht; omega)
              simp only [rangeStream, produce, receive, List.length_cons, hl, ne_eq, not_true_eq_false,
                if_true, if_false]
              rw [key]
              simp [tagFrom]
              omega
            · simp only [rangeStream, produce, receive, List.length_cons, hl, ne_eq, not_true_eq_false,
                if_true, if_false]
              rw [key2]
              simp [tagFrom]
    · simp only at h1 hi
      subst h1 hi
      simp only [ResultStream.ticks, List.length_cons] at ht
      cases buf with
      | nil => cases b <;> simp [rangeStream, produce, receive, tagFrom]
      | cons x rest =>
        have key2 := ih ⟨[], obj, rest, 1⟩ (docs ++ [x]) (Or.inr ⟨rfl, rfl⟩)
          (by simp [ResultStream.ticks]; simp at ht; omega)
        cases b <;> simp [rangeStream, produce, receive, key2, tagFrom]

/-- Under every schedule of enough ticks one receive yields the oldest item
of the stream, or the zero value when the stream ends empty. -/
theorem recvOne_first (sched : List Bool) :
    ∀ (r : ResultStream), r.Sound → r.firstTicks ≤ sched.length →
      (recvOne sched r).map Prod.fst = some (r.buf ++ tagFrom r.obj r.iter).head? := by
  induction sched with
  | nil =>
    intro r _ ht
    unfold ResultStream.firstTicks at ht
    split at ht <;> simp at ht
  | cons b sched ih =>
    intro r hs ht
    obtain ⟨iter, obj, buf, closes⟩ := r
    rcases hs with h0 | ⟨h1, hi⟩
    · simp only at h0
      subst h0
      simp only [ResultStream.firstTicks, if_true, List.length_cons] at ht
      cases buf with
      | cons x rest =>
        cases b
        · simp [recvOne, produce, receive]
        · cases iter with
          | nil =>
            have h1 := ih ⟨[], obj, x :: rest, 1⟩ (Or.inr ⟨rfl, rfl⟩)
              (by simp [ResultStream.firstTicks]; simp at ht; omega)
            simpa [recvOne, produce, receive] using h1
          | cons d ds =>
            by_cases hl : rest.length + 1 < resultCap
            · have h1 := ih ⟨ds, obj + 1, (x :: rest) ++ [(obj, d)], 0⟩ (Or.inl rfl)
                (by simp [ResultStream.firstTicks]; simp at ht; omega)
              simp only [recvOne, produce, receive, List.length_cons, hl, ne_eq,
                not_true_eq_false, if_true, if_false]
              rw [h1]
              simp
            · simp only [recvOne, produce, receive, List.length_cons, hl, ne_eq,
                not_true_eq_false, if_true, if_false]
              simp
      | nil =>
        cases iter with
        | nil =>
          have h1 := ih ⟨[], obj, [], 1⟩ (Or.inr ⟨rfl, rfl⟩)
            (by simp [ResultStream.firstTicks]; omega)
          cases b <;> simpa [recvOne, produce, receive] using h1
        | cons d ds =>
          have h1 := ih ⟨ds, obj + 1, [(obj, d)], 0⟩ (Or.inl rfl)
            (by simp [ResultStream.firstTicks]; simp at ht; omega)
          cases b <;> simpa [recvOne, produce, receive, resultCap, tagFrom] using h1
    · simp only at h1 hi
      subst h1 hi
      cases buf with
      | nil => cases b <;> simp [recvOne, produce, receive, tagFrom]
      | cons x rest => cases b <;> simp [recvOne, produce, receive]

/-- What one receive on a fresh stream yields. -/
theorem received_first (k : Nat) (docs : List Doc) :
    received (tagFrom k docs).head? = firstDoc docs := by
  cases docs <;> rfl

/-- The slice built from the drained items holds the documents. -/
theorem docsValue_tagFrom (k : Nat) (docs : List Doc) :
    docsValue (tagFrom k docs) = Value.slice (docs.map Value.map) := by
  have h : (tagFrom k docs).map (fun x => Value.map x.2) =
      ((tagFrom k docs).map Prod.snd).map Value.map := by simp
  rw [docsValue, h, tagFrom_snd]

/-- The loop over a fresh stream. -/
theorem rangeStream_fresh (docs : List Doc) (sched : List Bool)
    (h : 2 * docs.length + 2 ≤ sched.length) :
    rangeStream sched (ResultStream.fresh docs) [] =
      some (tagFrom 0 docs, ⟨[], docs.length, [], 1⟩) := by
  have := rangeStream_drains sched (ResultStream.fresh docs) [] (Or.inl rfl)
    (by simpa [ResultStream.ticks, ResultStream.fresh] using h)
  simpa [ResultStream.fresh] using this

/-- The loop over a drained stream ends at once with nothing. -/
theorem rangeStream_closed (n : Nat) (sched : List Bool) (h : sched ≠ []) :
    rangeStream sched ⟨[], n, [], 1⟩ [] = some ([], ⟨[], n, [], 1⟩) := by
  have := rangeStream_drains sched ⟨[], n, [], 1⟩ [] (Or.inr ⟨rfl, rfl⟩)
    (by
      cases sched with
      | nil => exact absurd rfl h
      | cons b rest => simp [ResultStream.ticks])
  simpa [tagFrom] using this

/-- C6: a valid find request made while connected enqueues a find command;
when the dispatcher serves it on a session and the iterator reports no
error, the reply channel is sent a fresh stream over the documents
`d1..dn` of the iterator.  Under every schedule of at least `2n + 2` ticks
the loop of the processor receives exactly `d1..dn` in order, each in a map
of its own, and leaves the stream closed once; the processor responds with
`docs` equal to `[d1..dn]`; and a second loop over the same stream ends at
once with nothing. -/
theorem find_stream_delivers (drv : Driver) (st stD : State) (s : Session) (event : Event)
    (payload : Doc) (db collection : String) (sched sched2 : List Bool)
    (hp : event.Payload.asMap = some payload)
    (hdb : (Doc.get payload "db").asString = some db)
    (hc : (Doc.get payload "collection").asString = some collection)
    (hqry : (Doc.get payload "query").asMap.isSome = true)
    (hconn : st.mongo.connected = true)
    (hs : stD.mongo.session = some s)
    (herr : (drv.Find stD.log s db collection (Doc.get payload "query")).errAtCheck = none)
    (hsched : 2 * (drv.Find stD.log s db collection (Doc.get payload "query")).docs.length + 2
      ≤ sched.length)
    (hsched2 : sched2 ≠ []) :
    ∃ k e stD1,
      findProcessor st event =
        Handled.await
          (State.enqueue { st with chans := st.chans + 1 }
            ⟨commandType.find, db, collection, [Doc.get payload "query"], some st.chans⟩)
          st.chans k ∧
      dispatch drv stD
          ⟨commandType.find, db, collection, [Doc.get payload "query"], some st.chans⟩ =
        Res.ret e stD1 ∧
      stD1.replies = stD.replies ++ [(st.chans, Reply.result (ResultStream.fresh
        (drv.Find stD.log s db collection (Doc.get payload "query")).docs))] ∧
      rangeStream sched (ResultStream.fresh
          (drv.Find stD.log s db collection (Doc.get payload "query")).docs) [] =
        some (tagFrom 0 (drv.Find stD.log s db collection (Doc.get payload "query")).docs,
          ⟨[], (drv.Find stD.log s db collection (Doc.get payload "query")).docs.length,
            [], 1⟩) ∧
      (tagFrom 0 (drv.Find stD.log s db collection (Doc.get payload "query")).docs).map Prod.snd
        = (drv.Find stD.log s db collection (Doc.get payload "query")).docs ∧
      ((tagFrom 0 (drv.Find stD.log s db collection (Doc.get payload "query")).docs).map
        Prod.fst).Nodup ∧
      k (Reply.result (ResultStream.fresh
          (drv.Find stD.log s db collection (Doc.get payload "query")).docs)) sched =
        some { event with Payload := Value.map (Doc.set payload "docs" (Value.slice
          ((drv.Find stD.log s db collection (Doc.get payload "query")).docs.map Value.map))) } ∧
      rangeStream sched2
          ⟨[], (drv.Find stD.log s db collection (Doc.get payload "query")).docs.length, [], 1⟩
          [] =
        some ([], ⟨[], (drv.Find stD.log s db collection (Doc.get payload "query")).docs.length,
          [], 1⟩) := by
  obtain ⟨q, hq⟩ := Option.isSome_iff_exists.mp hqry
  simp only [findProcessor, hp, hdb, hc, hq, Find, hconn, Bool.not_true, Bool.false_eq_true,
    if_false, dispatch, find, hs, herr]
  refine ⟨_, _, _, rfl, rfl, ?_, rangeStream_fresh _ sched hsched, tagFrom_snd _ 0,
    tagFrom_nodup _ 0, ?_, rangeStream_closed _ sched2 hsched2⟩
  · simp [State.reply, State.record]
  · simp only [FindReturn, rangeStream_fresh _ sched hsched, Option.map, docsValue_tagFrom]

/-- A concrete instance: a find request whose query matches one order. -/
theorem find_stream_delivers_witness :
    ∃ k, findProcessor (serving []) orderFind =
        Handled.await
          (State.enqueue { serving [] with chans := 2 } queryCmd1) 1 k ∧
      k (Reply.result (ResultStream.fresh [[("amount", Value.num 10)]]))
          [true, false, true, false] =
        some ⟨[], Value.map [("db", Value.str "shop"), ("collection", Value.str "orders"),
          ("query", Value.map [("amount", Value.num 10)]),
          ("docs", Value.slice [Value.map [("amount", Value.num 10)]])]⟩ := by
  obtain ⟨k, _, _, h1, _, _, _, _, _, h7, _⟩ :=
    find_stream_delivers upDriver (serving []) (serving []) 7 orderFind
      [("db", Value.str "shop"), ("collection", Value.str "orders"),
        ("query", Value.map [("amount", Value.num 10)])]
      "shop" "orders" [true, false, true, false] [true] rfl rfl rfl rfl rfl rfl rfl
      (by decide) (by decide)
  exact ⟨k, h1, h7⟩

/-- A valid get request whose identifier matches no document is answered with
no error annotation and a nil `doc`. -/
theorem get_no_match_silent :
    served downDriver (getProcessor stdBson (serving []) orderGet) [true, true] =
      some ⟨[], Value.map [("db", Value.str "shop"), ("collection", Value.str "orders"),
        ("id", Value.str "507f1f77bcf86cd799439011"), ("doc", Value.nilMap)]⟩ := by
  rfl

/-- C8, amended: a valid get request (a valid find request) made while the
flag is false is answered with the error annotation "db not connected";
made while the flag is true it waits for the reply, and is answered with the
error as annotation when the reply is an error, and when the reply is a
stream with `doc` set to the first document of the stream, the nil map when
the stream has none (with `docs` set to all its documents). -/
theorem get_find_respond (bson : Bson) (st : State) (event : Event) (payload : Doc)
    (db collection : String)
    (hp : event.Payload.asMap = some payload)
    (hdb : (Doc.get payload "db").asString = some db)
    (hc : (Doc.get payload "collection").asString = some collection) :
    (∀ id, (Doc.get payload "id").asString = some id → bson.IsObjectIdHex id = true →
      (st.mongo.connected = false →
        getProcessor bson st event = Handled.done (addError "db not connected" event) st) ∧
      (st.mongo.connected = true →
        ∃ k, getProcessor bson st event =
            Handled.await
              (State.enqueue { st with chans := st.chans + 1 }
                ⟨commandType.find, db, collection, [Value.map [("_id", Value.objectId id)]],
                  some st.chans⟩)
              st.chans k ∧
          (∀ e sched, k (Reply.err e) sched = some (addError e event)) ∧
          (∀ docs sched, docs.length + 2 ≤ sched.length →
            k (Reply.result (ResultStream.fresh docs)) sched =
              some { event with
                Payload := Value.map (Doc.set payload "doc" (firstDoc docs)) }))) ∧
    ((Doc.get payload "query").asMap.isSome = true →
      (st.mongo.connected = false →
        findProcessor st event = Handled.done (addError "db not connected" event) st) ∧
      (st.mongo.connected = true →
        ∃ k, findProcessor st event =
            Handled.await
              (State.enqueue { st with chans := st.chans + 1 }
                ⟨commandType.find, db, collection, [Doc.get payload "query"], some st.chans⟩)
              st.chans k ∧
          (∀ e sched, k (Reply.err e) sched = some (addError e event)) ∧
          (∀ docs sched, 2 * docs.length + 2 ≤ sched.length →
            k (Reply.result (ResultStream.fresh docs)) sched =
              some { event with
                Payload := Value.map (Doc.set payload "docs"
                  (Value.slice (docs.map Value.map))) }))) := by
  refine ⟨fun id hid hhex => ⟨fun hconn => ?_, fun hconn => ?_⟩,
    fun hqry => ⟨fun hconn => ?_, fun hconn => ?_⟩⟩
  · simp [getProcessor, hp, hdb, hc, hid, hhex, Find, hconn]
  · simp only [getProcessor, hp, hdb, hc, hid, hhex, Find, hconn, Bool.not_true,
      Bool.false_eq_true, if_false, if_true]
    refine ⟨_, rfl, fun e sched => rfl, fun docs sched h => ?_⟩
    have h1 := recvOne_first sched (ResultStream.fresh docs) (Or.inl rfl)
      (by simpa [ResultStream.firstTicks, ResultStream.fresh] using h)
    simp only [FindReturn]
    cases hr : recvOne sched (ResultStream.fresh docs) with
    | none => simp [hr] at h1
    | some out =>
      rw [hr] at h1
      simp only [Option.map, Option.some.injEq, ResultStream.fresh, List.nil_append] at h1
      simp only [Option.map, h1, received_first]
  · obtain ⟨q, hq⟩ := Option.isSome_iff_exists.mp hqry
    simp [findProcessor, hp, hdb, hc, hq, Find, hconn]
  · obtain ⟨q, hq⟩ := Option.isSome_iff_exists.mp hqry
    simp only [findProcessor, hp, hdb, hc, hq, Find, hconn, Bool.not_true,
      Bool.false_eq_true, if_false]
    refine ⟨_, rfl, fun e sched => rfl, fun docs sched h => ?_⟩
    simp only [FindReturn, rangeStream_fresh _ sched h, Option.map, docsValue_tagFrom]

/-- A concrete instance: a get request, answered with an error and with a
stream of one order. -/
theorem get_find_respond_witness :
    ∃ k, getProcessor stdBson (serving []) orderGet =
        Handled.await
          (State.enqueue { serving [] with chans := 2 }
            ⟨commandType.find, "shop", "orders",
              [Value.map [("_id", Value.objectId "507f1f77bcf86cd799439011")]], some 1⟩)
          1 k ∧
      k (Reply.err "EOF") [] =
        some ⟨[[("Error", "EOF")]], Value.map [("db", Value.str "shop"),
          ("collection", Value.str "orders"), ("id", Value.str "507f1f77bcf86cd799439011")]⟩ ∧
      k (Reply.result (ResultStream.fresh [[("amount", Value.num 10)]])) [false, true, false] =
        some ⟨[], Value.map [("db", Value.str "shop"), ("collection", Value.str "orders"),
          ("id", Value.str "507f1f77bcf86cd799439011"),
          ("doc", Value.map [("amount", Value.num 10)])]⟩ := by
  obtain ⟨k, h1, h2, h3⟩ :=
    ((get_find_respond stdBson (serving []) orderGet
      [("db", Value.str "shop"), ("collection", Value.str "orders"),
        ("id", Value.str "507f1f77bcf86cd799439011")]
      "shop" "orders" rfl rfl rfl).1 "507f1f77bcf86cd799439011" rfl rfl).2 rfl
  exact ⟨k, h1, h2 "EOF" [], h3 [[("amount", Value.num 10)]] [false, true, false] (by decide)⟩

/-! ### The connection manager -/

/-- The most recent successful dial of a log with one more call. -/
theorem lastDialed_append (log : List Call) (c : Call) :
    lastDialed (log ++ [c]) =
      match c.dialed with
      | some s => some s
      | none => lastDialed log := by
  induction log with
  | nil => simp only [List.nil_append, lastDialed]; cases c.dialed <;> rfl
  | cons d rest ih =>
    have h : lastDialed (d :: rest ++ [c]) =
        match lastDialed (rest ++ [c]) with
        | some s => some s
        | none => d.dialed := rfl
    rw [h, ih]
    cases c.dialed <;> rfl

/-- A database call is not a dial. -/
theorem lastDialed_record (st : State) (s : Session) (op : Op) (err : Option String)
    (h : ∀ a, op ≠ Op.Dial a) :
    lastDialed (st.record s op err).log = lastDialed st.log := by
  simp only [State.record, lastDialed_append]
  cases op with
  | Dial a => exact absurd rfl (h a)
  | _ => rfl

/-- The send of the dispatcher touches the queue only. -/
theorem resend_kept (st st0 : State) (c : cmd) (e : String) (h : Kept st0 st) :
    (resend st c e).All (Kept st0) := by
  unfold resend
  split
  · exact h
  · exact h

/-- The handlers leave the session, the flag and the address alone and log no
dial. -/
theorem dispatch_kept (drv : Driver) (st : State) (c : cmd) :
    (dispatch drv st c).All (Kept st) := by
  unfold dispatch
  cases c.Typ
  · simp only [insert]
    split
    · split
      · exact resend_kept _ _ _ _ ⟨rfl, rfl, rfl, lastDialed_record _ _ _ _ (by simp)⟩
      · exact ⟨rfl, rfl, rfl, lastDialed_record _ _ _ _ (by simp)⟩
    · trivial
  · simp only [upsert]
    split
    · split
      · exact resend_kept _ _ _ _ ⟨rfl, rfl, rfl, lastDialed_record _ _ _ _ (by simp)⟩
      · exact ⟨rfl, rfl, rfl, lastDialed_record _ _ _ _ (by simp)⟩
    · trivial
  · simp only [find]
    split
    · split
      · exact ⟨rfl, rfl, rfl, lastDialed_record _ _ _ _ (by simp)⟩
      · split
        · exact ⟨rfl, rfl, rfl, lastDialed_record _ _ _ _ (by simp)⟩
        · exact ⟨rfl, rfl, rfl, lastDialed_record _ _ _ _ (by simp)⟩
    · trivial
  · simp only [remove]
    split
    · split
      · exact resend_kept _ _ _ _ ⟨rfl, rfl, rfl, lastDialed_record _ _ _ _ (by simp)⟩
      · exact ⟨rfl, rfl, rfl, lastDialed_record _ _ _ _ (by simp)⟩
    · trivial

/-- A move of `backend` keeps the invariant. -/
theorem step_inv (drv : Driver) (σ : Sys) (h : σ.Inv) : (σ.step drv).Inv := by
  obtain ⟨phase, st⟩ := σ
  cases phase with
  | dial =>
    simp only [Sys.step]
    split
    · exact h
    · next s hs =>
      refine ⟨rfl, rfl, ?_⟩
      simp [State.dialed, lastDialed_append, Call.dialed]
  | backoff => exact h
  | loop =>
    simp only [Sys.step]
    cases hd : st.dequeue with
    | none => exact h
    | some p =>
      obtain ⟨c, st1⟩ := p
      have hk : Kept st st1 := by
        unfold State.dequeue at hd
        split at hd
        · exact absurd hd (by simp)
        · simp only [Option.some.injEq, Prod.mk.injEq] at hd
          rw [← hd.2]
          exact ⟨rfl, rfl, rfl, rfl⟩
      have h1 : Sys.Inv ⟨Phase.loop, st1⟩ := by
        obtain ⟨a, b, c⟩ := h
        obtain ⟨k1, k2, _, k4⟩ := hk
        exact ⟨by rw [k2]; exact a, by rw [k1]; exact b, by rw [k1, k4]; exact c⟩
      have hk2 := dispatch_kept drv st1 c
      simp only []
      cases hr : dispatch drv st1 c with
      | ret e st2 =>
        rw [hr] at hk2
        obtain ⟨k1, k2, _, k4⟩ := hk2
        obtain ⟨a, b, c⟩ := h1
        have : Sys.Inv ⟨Phase.loop, st2⟩ :=
          ⟨by rw [k2]; exact a, by rw [k1]; exact b, by rw [k1, k4]; exact c⟩
        cases e with
        | none => exact this
        | some e => exact this
      | stuck st2 =>
        rw [hr] at hk2
        obtain ⟨k1, k2, _, k4⟩ := hk2
        obtain ⟨a, b, c⟩ := h1
        exact ⟨by rw [k2]; exact a, by rw [k1]; exact b, by rw [k1, k4]; exact c⟩
      | panic => exact h1
  | reset => rfl
  | blocked => exact h
  | crashed => exact h

/-- A send on the queue keeps the invariant. -/
theorem enqueue_inv (σ : Sys) (c : cmd) (h : σ.Inv) : Sys.Inv ⟨σ.phase, σ.st.enqueue c⟩ := by
  obtain ⟨phase, st⟩ := σ
  cases phase <;> exact h

/-- The invariant holds in every reachable state. -/
theorem reachable_inv (drv : Driver) (addr : String) (σ : Sys) (h : Reachable drv addr σ) :
    σ.Inv := by
  induction h with
  | init => rfl
  | step _ ih => exact step_inv drv _ ih
  | callInsert db collection doc _ ih => exact enqueue_inv _ _ ih
  | callUpsert db collection query doc _ ih => exact enqueue_inv _ _ ih
  | callRemove db collection query _ ih => exact enqueue_inv _ _ ih
  | @callFind σ db collection query _ ih =>
    obtain ⟨phase, st⟩ := σ
    simp only [Find]
    split
    · exact ih
    · cases phase <;> exact ih

/-- The send of the dispatcher adds the command or, blocked, nothing. -/
theorem resend_commands (st : State) (c : cmd) (e : String) :
    (resend st c e).All fun st2 =>
      st2.mongo.commands = st.mongo.commands ∨ st2.mongo.commands = st.mongo.commands ++ [c] := by
  unfold resend
  split
  · exact Or.inr rfl
  · exact Or.inl rfl

/-- A handler leaves the queue as it is or adds its own command at the back. -/
theorem dispatch_commands (drv : Driver) (st : State) (c : cmd) :
    (dispatch drv st c).All fun st2 =>
      st2.mongo.commands = st.mongo.commands ∨ st2.mongo.commands = st.mongo.commands ++ [c] := by
  unfold dispatch
  cases c.Typ
  · simp only [insert]
    split
    · split
      · exact resend_commands _ _ _
      · exact Or.inl rfl
    · trivial
  · simp only [upsert]
    split
    · split
      · exact resend_commands _ _ _
      · exact Or.inl rfl
    · trivial
  · simp only [find]
    split
    · split
      · exact Or.inl rfl
      · split
        · exact Or.inl rfl
        · exact Or.inl rfl
    · trivial
  · simp only [remove]
    split
    · split
      · exact resend_commands _ _ _
      · exact Or.inl rfl
    · trivial

/-- The send of the dispatcher does not panic. -/
theorem resend_no_panic (st : State) (c : cmd) (e : String) : resend st c e ≠ Res.panic := by
  unfold resend
  split <;> simp

/-- A command of the API served on a session does not panic. -/
theorem dispatch_no_panic (drv : Driver) (st : State) (c : cmd) (s : Session)
    (hi : c.Issued) (hs : st.mongo.session = some s) : dispatch drv st c ≠ Res.panic := by
  cases hi with
  | insert db collection doc =>
    simp only [dispatch, insert, hs]
    split
    · exact resend_no_panic _ _ _
    · simp
  | upsert db collection query doc =>
    simp only [dispatch, upsert, hs]
    split
    · exact resend_no_panic _ _ _
    · simp
  | remove db collection query =>
    simp only [dispatch, remove, hs]
    split
    · exact resend_no_panic _ _ _
    · simp
  | find db collection query ch =>
    simp only [dispatch, find, hs]
    split <;> simp

/-- A move of `backend` keeps the queue made of commands of the API and does
not panic. -/
theorem step_clean (drv : Driver) (σ : Sys) (h : σ.Inv) (hc : σ.Clean) : (σ.step drv).Clean := by
  obtain ⟨phase, st⟩ := σ
  obtain ⟨hq, hp⟩ := hc
  cases phase with
  | dial =>
    simp only [Sys.step]
    split
    · exact ⟨hq, by simp⟩
    · exact ⟨hq, by simp⟩
  | backoff => exact ⟨hq, by simp [Sys.step]⟩
  | loop =>
    simp only [Sys.step]
    cases hd : st.dequeue with
    | none => exact ⟨hq, hp⟩
    | some p =>
      obtain ⟨c, st1⟩ := p
      unfold State.dequeue at hd
      split at hd
      · exact absurd hd (by simp)
      · next c0 rest hcs =>
        simp only [Option.some.injEq, Prod.mk.injEq] at hd
        obtain ⟨rfl, rfl⟩ := hd
        simp only at hq
        rw [hcs] at hq
        have hci : c0.Issued := hq c0 (List.mem_cons_self _ _)
        have hrest : ∀ c ∈ rest, c.Issued := fun c hc => hq c (List.mem_cons_of_mem _ hc)
        obtain ⟨s, hs⟩ := Option.isSome_iff_exists.mp h.2.1
        have hnp := dispatch_no_panic drv
          { st with mongo := { st.mongo with commands := rest } } c0 s hci hs
        have hcm := dispatch_commands drv
          { st with mongo := { st.mongo with commands := rest } } c0
        simp only []
        cases hr : dispatch drv { st with mongo := { st.mongo with commands := rest } } c0 with
        | ret e st2 =>
          rw [hr] at hcm
          have hall : ∀ c ∈ st2.mongo.commands, c.Issued := by
            rcases hcm with h1 | h1
            · rw [h1]; exact hrest
            · rw [h1]
              intro c hc
              rcases List.mem_append.mp hc with h2 | h2
              · exact hrest c h2
              · rw [List.mem_singleton.mp h2]; exact hci
          cases e with
          | none => exact ⟨hall, by simp⟩
          | some e => exact ⟨hall, by simp⟩
        | stuck st2 =>
          rw [hr] at hcm
          refine ⟨?_, by simp⟩
          rcases hcm with h1 | h1
          · rw [h1]; exact hrest
          · rw [h1]
            intro c hc
            rcases List.mem_append.mp hc with h2 | h2
            · exact hrest c h2
            · rw [List.mem_singleton.mp h2]; exact hci
        | panic => exact absurd hr hnp
  | reset => exact ⟨hq, by simp [Sys.step]⟩
  | blocked => exact ⟨hq, hp⟩
  | crashed => exact absurd rfl hp

/-- A send of a command of the API keeps the queue made of such commands. -/
theorem enqueue_clean (σ : Sys) (c : cmd) (hi : c.Issued) (h : σ.Clean) :
    Sys.Clean ⟨σ.phase, σ.st.enqueue c⟩ := by
  refine ⟨?_, h.2⟩
  intro d hd
  simp only [State.enqueue] at hd
  rcases List.mem_append.mp hd with h2 | h2
  · exact h.1 d h2
  · rw [List.mem_singleton.mp h2]; exact hi

/-- No reachable state has panicked or holds a command not of the API. -/
theorem reachable_clean (drv : Driver) (addr : String) (σ : Sys) (h : Reachable drv addr σ) :
    σ.Clean := by
  induction h with
  | init => exact ⟨by simp [NewMongo], by simp⟩
  | step hr ih => exact step_clean drv _ (reachable_inv drv addr _ hr) ih
  | callInsert db collection doc _ ih => exact enqueue_clean _ _ (cmd.Issued.insert _ _ _) ih
  | callUpsert db collection query doc _ ih =>
    exact enqueue_clean _ _ (cmd.Issued.upsert _ _ _ _) ih
  | callRemove db collection query _ ih => exact enqueue_clean _ _ (cmd.Issued.remove _ _ _) ih
  | @callFind σ db collection query _ ih =>
    simp only [Find]
    split
    · exact ih
    · exact enqueue_clean ⟨σ.phase, { σ.st with chans := σ.st.chans + 1 }⟩ _
        (cmd.Issued.find _ _ _ _) ih

/-- Where a move from inside `commandLoop` leads. -/
theorem step_loop_phase (drv : Driver) (st : State) :
    (Sys.step drv ⟨Phase.loop, st⟩).phase = Phase.loop ∨
    (Sys.step drv ⟨Phase.loop, st⟩).phase = Phase.reset ∨
    (Sys.step drv ⟨Phase.loop, st⟩).phase = Phase.blocked ∨
    (Sys.step drv ⟨Phase.loop, st⟩).phase = Phase.crashed := by
  simp only [Sys.step]
  split
  · simp
  · split <;> simp

/-- C10: in every state reachable from `NewMongo` by moves of `backend` and calls
of the API, the flag is true exactly from a successful dial to the reset
after `commandLoop` (inside the loop, at the reset, or blocked in the loop),
and then the session is the one the most recent successful dial returned.
A failed dial leaves the `Mongo` struct (flag false, session, queue) as it
is, sleeps one unit and is back at the dial; a successful dial publishes its
session and sets the flag; the loop is left only for the reset, which sets
the flag to false before the next dial. -/
theorem backend_flag (drv : Driver) (addr : String) (σ : Sys) (h : Reachable drv addr σ) :
    (σ.st.mongo.connected = true ↔
      (σ.phase = Phase.loop ∨ σ.phase = Phase.reset ∨ σ.phase = Phase.blocked)) ∧
    (σ.st.mongo.connected = true →
      σ.st.mongo.session.isSome = true ∧ σ.st.mongo.session = lastDialed σ.st.log) ∧
    (σ.phase = Phase.dial → ∀ e, drv.Dial σ.st.log σ.st.mongo.addr = Except.error e →
      (σ.step drv).phase = Phase.backoff ∧ (σ.step drv).st.mongo = σ.st.mongo ∧
      (σ.step drv).st.mongo.connected = false ∧
      ((σ.step drv).step drv).phase = Phase.dial ∧
      ((σ.step drv).step drv).st.mongo = σ.st.mongo ∧
      ((σ.step drv).step drv).st.slept = σ.st.slept + 1) ∧
    (σ.phase = Phase.dial → ∀ s, drv.Dial σ.st.log σ.st.mongo.addr = Except.ok s →
      (σ.step drv).phase = Phase.loop ∧
      (σ.step drv).st.mongo = { σ.st.mongo with session := some s, connected := true } ∧
      lastDialed (σ.step drv).st.log = some s) ∧
    (σ.phase = Phase.loop →
      (σ.step drv).phase = Phase.loop ∨ (σ.step drv).phase = Phase.reset ∨
        (σ.step drv).phase = Phase.blocked) ∧
    (σ.phase = Phase.reset →
      (σ.step drv).phase = Phase.dial ∧ (σ.step drv).st.mongo.connected = false ∧
      (σ.step drv).st.mongo.session = σ.st.mongo.session ∧
      (σ.step drv).st.mongo.commands = σ.st.mongo.commands) := by
  have hinv := reachable_inv drv addr σ h
  have hcl := reachable_clean drv addr σ h
  have hcl2 := step_clean drv σ hinv hcl
  have hinv2 := step_inv drv σ hinv
  obtain ⟨phase, st⟩ := σ
  refine ⟨?_, ?_, ?_, ?_, ?_, ?_⟩
  · cases phase <;> simp only [Sys.Inv] at hinv <;> simp [hinv]
    exact absurd rfl hcl.2
  · intro hc
    cases phase <;> simp only [Sys.Inv] at hinv <;>
      first
      | exact ⟨hinv.2.1, hinv.2.2⟩
      | exact absurd hc (by simp [hinv])
  · intro hp e he
    simp only at hp
    subst hp
    simp only [Sys.Inv] at hinv
    simp [Sys.step, he, State.dialed, hinv]
  · intro hp s hs
    simp only at hp
    subst hp
    simp [Sys.step, hs, State.dialed, lastDialed_append, Call.dialed]
  · intro hp
    simp only at hp
    subst hp
    rcases step_loop_phase drv st with h1 | h1 | h1 | h1
    · exact Or.inl h1
    · exact Or.inr (Or.inl h1)
    · exact Or.inr (Or.inr h1)
    · exact absurd h1 hcl2.2
  · intro hp
    simp only at hp
    subst hp
    simp [Sys.step]

/-- A concrete instance: the first dial of a database that cannot be
reached. -/
theorem backend_flag_witness :
    (Sys.step unreachableDriver ⟨Phase.dial, NewMongo "localhost"⟩).phase = Phase.backoff ∧
    (Sys.step unreachableDriver ⟨Phase.dial, NewMongo "localhost"⟩).st.mongo =
      (NewMongo "localhost").mongo ∧
    (Sys.step unreachableDriver ⟨Phase.dial, NewMongo "localhost"⟩).st.mongo.connected = false ∧
    ((Sys.step unreachableDriver ⟨Phase.dial, NewMongo "localhost"⟩).step
      unreachableDriver).phase = Phase.dial ∧
    ((Sys.step unreachableDriver ⟨Phase.dial, NewMongo "localhost"⟩).step
      unreachableDriver).st.mongo = (NewMongo "localhost").mongo ∧
    ((Sys.step unreachableDriver ⟨Phase.dial, NewMongo "localhost"⟩).step
      unreachableDriver).st.slept = 1 :=
  (backend_flag unreachableDriver "localhost" ⟨Phase.dial, NewMongo "localhost"⟩
    Reachable.init).2.2.1 rfl "no reachable servers" rfl

/-! ### The two views of the connection manager agree -/

/-- The send of the dispatcher never reports success. -/
theorem resend_not_ok (st : State) (c : cmd) (e : String) (st2 : State) :
    resend st c e ≠ Res.ret none st2 := by
  unfold resend
  split <;> simp

/-- A handler that reports success leaves the queue as it is. -/
theorem dispatch_ok_commands (drv : Driver) (st : State) (c : cmd) (st2 : State)
    (h : dispatch drv st c = Res.ret none st2) : st2.mongo.commands = st.mongo.commands := by
  unfold dispatch at h
  cases hc : c.Typ <;> rw [hc] at h <;> simp only at h
  · simp only [insert] at h
    split at h
    · split at h
      · exact absurd h (resend_not_ok _ _ _ _)
      · simp only [Res.ret.injEq, true_and] at h
        rw [← h]; rfl
    · exact absurd h (by simp)
  · simp only [upsert] at h
    split at h
    · split at h
      · exact absurd h (resend_not_ok _ _ _ _)
      · simp only [Res.ret.injEq, true_and] at h
        rw [← h]; rfl
    · exact absurd h (by simp)
  · simp only [find] at h
    split at h
    · split at h
      · exact absurd h (by simp)
      · split at h
        · simp only [Res.ret.injEq] at h
          rw [← h.2]; rfl
        · simp only [Res.ret.injEq] at h
          rw [← h.2]; rfl
    · exact absurd h (by simp)
  · simp only [remove] at h
    split at h
    · split at h
      · exact absurd h (resend_not_ok _ _ _ _)
      · simp only [Res.ret.injEq, true_and] at h
        rw [← h]; rfl
    · exact absurd h (by simp)

/-- One iteration of `commandLoop` on a queue that is not empty. -/
theorem commandLoop_succ (drv : Driver) (n : Nat) (st : State) (c : cmd) (rest : List cmd)
    (hq : st.mongo.commands = c :: rest) :
    commandLoop drv (n + 1) st =
      match dispatch drv { st with mongo := { st.mongo with commands := rest } } c with
      | Res.ret none st2 => commandLoop drv n st2
      | Res.ret (some _) st2 => (LoopEnd.returned, st2)
      | Res.stuck st2 => (LoopEnd.deadlock, st2)
      | Res.panic => (LoopEnd.panicked, { st with mongo := { st.mongo with commands := rest } }) := by
  simp only [commandLoop, State.dequeue, hq]

/-- One unit of fuel per queued command and one more is enough for
`commandLoop`: more fuel gives the same result, and the fuel does not run
out. -/
theorem commandLoop_fuel (drv : Driver) (fuel : Nat) :
    ∀ (st : State), st.mongo.commands.length < fuel →
      commandLoop drv fuel st = commandLoop drv (st.mongo.commands.length + 1) st ∧
      (commandLoop drv fuel st).1 ≠ LoopEnd.outOfFuel := by
  induction fuel with
  | zero => intro st h; exact absurd h (by omega)
  | succ f ih =>
    intro st h
    cases hq : st.mongo.commands with
    | nil => simp [commandLoop, State.dequeue, hq]
    | cons c rest =>
      rw [commandLoop_succ drv f st c rest hq, List.length_cons,
        commandLoop_succ drv (rest.length + 1) st c rest hq]
      cases hd : dispatch drv { st with mongo := { st.mongo with commands := rest } } c with
      | ret e st2 =>
        cases e with
        | none =>
          have hc := dispatch_ok_commands drv _ c st2 hd
          simp only at hc
          have hl : st2.mongo.commands.length < f := by
            rw [hc]; rw [hq] at h; simp at h; omega
          have h1 := ih st2 hl
          rw [hc] at h1
          exact h1
        | some e => simp
      | stuck st2 => simp
      | panic => simp

/-- A run of `commandLoop` is a sequence of moves of the transition system. -/
theorem commandLoop_reachable (drv : Driver) (addr : String) (fuel : Nat) :
    ∀ (st : State), Reachable drv addr ⟨Phase.loop, st⟩ →
      Reachable drv addr
        ⟨(commandLoop drv fuel st).1.phase, (commandLoop drv fuel st).2⟩ := by
  induction fuel with
  | zero => intro st h; exact h
  | succ f ih =>
    intro st h
    have hs := Reachable.step h
    simp only [Sys.step] at hs
    simp only [commandLoop]
    cases hd : st.dequeue with
    | none => exact h
    | some p =>
      obtain ⟨c, st1⟩ := p
      rw [hd] at hs
      simp only at hs ⊢
      cases hr : dispatch drv st1 c with
      | ret e st2 =>
        rw [hr] at hs
        cases e with
        | none => exact ih st2 hs
        | some e => exact hs
      | stuck st2 => rw [hr] at hs; exact hs
      | panic => rw [hr] at hs; exact hs

/-- A run of `backend` is a sequence of moves of the transition system: the
state it ends in is reachable. -/
theorem backend_reachable (drv : Driver) (addr : String) (fuel : Nat) :
    ∀ (st : State), Reachable drv addr ⟨Phase.dial, st⟩ →
      Reachable drv addr ⟨(backend drv fuel st).1.backendPhase, (backend drv fuel st).2⟩ := by
  induction fuel with
  | zero => intro st h; exact h
  | succ f ih =>
    intro st h
    have hs := Reachable.step h
    simp only [Sys.step] at hs
    simp only [backend]
    cases hd : drv.Dial st.log st.mongo.addr with
    | error e =>
      rw [hd] at hs
      have hs2 := Reachable.step hs
      exact ih _ hs2
    | ok s =>
      rw [hd] at hs
      simp only at hs ⊢
      have hl := commandLoop_reachable drv addr
        ((st.dialed (some s) none).mongo.commands.length + 1) _ hs
      have hne := (commandLoop_fuel drv ((st.dialed (some s) none).mongo.commands.length + 1)
        { st.dialed (some s) none with
          mongo := { (st.dialed (some s) none).mongo with
            session := some s, connected := true } } (by simp)).2
      revert hl hne
      generalize commandLoop drv ((st.dialed (some s) none).mongo.commands.length + 1)
        { st.dialed (some s) none with
          mongo := { (st.dialed (some s) none).mongo with
            session := some s, connected := true } } = out
      intro hl hne
      obtain ⟨e, st3⟩ := out
      cases e with
      | returned => exact ih _ (Reachable.step hl)
      | waiting => exact hl
      | deadlock => exact hl
      | panicked => exact hl
      | outOfFuel => exact absurd rfl hne

/-- After a find command the loop goes on or returns by the error the iterator
shows when `find` returns, whatever was sent on the reply channel. -/
theorem commandLoop_after_find (drv : Driver) (st : State) (c : cmd) (rest : List cmd)
    (s : Session) (q : Value) (args : List Value) (ch : Nat) (fuel : Nat)
    (hq : st.mongo.commands = c :: rest) (ht : c.Typ = commandType.find)
    (hs : st.mongo.session = some s) (ha : c.Args = q :: args) (hr : c.Return = some ch) :
    ((drv.Find st.log s c.DB c.Collection q).errAtReturn = none →
      ∃ st2, commandLoop drv (fuel + 1) st = commandLoop drv fuel st2 ∧
        st2.mongo.commands = rest) ∧
    (∀ e, (drv.Find st.log s c.DB c.Collection q).errAtReturn = some e →
      ∃ st2, commandLoop drv (fuel + 1) st = (LoopEnd.returned, st2) ∧
        st2.mongo.commands = rest) := by
  have h1 : dispatch drv { st with mongo := { st.mongo with commands := rest } } c =
      Res.ret (drv.Find st.log s c.DB c.Collection q).errAtReturn
        (match (drv.Find st.log s c.DB c.Collection q).errAtCheck with
          | some e =>
            State.reply (State.record { st with mongo := { st.mongo with commands := rest } } s
              (Op.Find c.DB c.Collection q) (some e)) ch (Reply.err e)
          | none =>
            State.reply (State.record { st with mongo := { st.mongo with commands := rest } } s
              (Op.Find c.DB c.Collection q) none) ch
              (Reply.result (ResultStream.fresh (drv.Find st.log s c.DB c.Collection q).docs))) := by
    simp only [dispatch, ht, find, hs, ha, hr]
    cases (drv.Find st.log s c.DB c.Collection q).errAtCheck <;> rfl
  have h4 : (match (drv.Find st.log s c.DB c.Collection q).errAtCheck with
      | some e =>
        State.reply (State.record { st with mongo := { st.mongo with commands := rest } } s
          (Op.Find c.DB c.Collection q) (some e)) ch (Reply.err e)
      | none =>
        State.reply (State.record { st with mongo := { st.mongo with commands := rest } } s
          (Op.Find c.DB c.Collection q) none) ch
          (Reply.result (ResultStream.fresh
            (drv.Find st.log s c.DB c.Collection q).docs))).mongo.commands = rest := by
    cases (drv.Find st.log s c.DB c.Collection q).errAtCheck <;> rfl
  rw [commandLoop_succ drv fuel st c rest hq, h1]
  constructor
  · intro h0
    rw [h0]
    exact ⟨_, rfl, h4⟩
  · intro e h0
    rw [h0]
    exact ⟨_, rfl, h4⟩

end SusiMongo
